import Mathlib

set_option maxRecDepth 100000

set_option maxHeartbeats 2000000

/-!
Verification of the coordinate-parsing core of the Excel-to-KML converter.

The development shallowly embeds the Python sources `xlsx_to_kml/parsing.py`,
`xlsx_to_kml/anomalies.py` and `xlsx_to_kml/projections.py`.  Strings are
`List Char`, Python floats are modelled as exact rationals (`ℚ`), and the
regular expressions of the source are compiled by hand into deterministic
scanners (each of the four patterns is backtracking-free, which was checked
against CPython's `re` on the corner cases).  External library functions
(pyproj transformers, the haversine of `math`) are abstracted as function
parameters, exactly as `parse_msk_coordinates` already receives its
transformer as an argument.  File loading (`proj4.json`, `objects_info.json`)
is abstracted by passing the loaded association lists as parameters.
-/

/-- Python `str.lower` restricted to the Latin and Cyrillic letters the
patterns of the source can mention; every other character is unchanged. -/
def pyLower (c : Char) : Char :=
  if 'A' ≤ c ∧ c ≤ 'Z' then Char.ofNat (c.toNat + 32)
  else if 'А' ≤ c ∧ c ≤ 'Я' then Char.ofNat (c.toNat + 32)
  else if c = 'Ё' then 'ё'
  else c

/-- Python `str.upper` restricted to Latin and Cyrillic letters. -/
def pyUpper (c : Char) : Char :=
  if 'a' ≤ c ∧ c ≤ 'z' then Char.ofNat (c.toNat - 32)
  else if 'а' ≤ c ∧ c ≤ 'я' then Char.ofNat (c.toNat - 32)
  else if c = 'ё' then 'Ё'
  else c

/-- Python `str.upper` on a whole string. -/
def pyUpperStr (s : String) : String := String.mk (s.data.map pyUpper)

/-- Python `str.strip()` (trim whitespace from both ends). -/
def pyStrip (l : List Char) : List Char :=
  ((l.dropWhile Char.isWhitespace).reverse.dropWhile Char.isWhitespace).reverse

/-- The character class `[A-Za-zА-Яа-яЁё]` used by the look-around of
`_has_standalone_token`. -/
def isTokenAlpha (c : Char) : Bool :=
  decide (('A' ≤ c ∧ c ≤ 'Z') ∨ ('a' ≤ c ∧ c ≤ 'z') ∨ ('А' ≤ c ∧ c ≤ 'я') ∨ c = 'Ё' ∨ c = 'ё')

/-- A word character in the sense of the `\b` boundary of Python's `re`
(restricted to the alphabets the data can contain). -/
def isWordChar (c : Char) : Bool := c.isDigit || isTokenAlpha c || c = '_'

/-- Does `l` start with the pattern `pat` (exact characters)? -/
def startsWithChars : List Char → List Char → Bool
  | [], _ => true
  | _ :: _, [] => false
  | p :: ps, c :: cs => p == c && startsWithChars ps cs

/-- Python's `pat in s` substring test. -/
def containsSub (pat : List Char) : List Char → Bool
  | [] => pat.isEmpty
  | c :: cs => startsWithChars pat (c :: cs) || containsSub pat cs

/-- Python's `s.endswith(pat)`. -/
def endsWithChars (pat l : List Char) : Bool :=
  startsWithChars pat.reverse l.reverse

/-- Case-insensitive prefix match, used for the `re.IGNORECASE` patterns. -/
def startsWithCI : List Char → List Char → Bool
  | [], _ => true
  | _ :: _, [] => false
  | t :: ts, c :: cs => pyLower c == pyLower t && startsWithCI ts cs

/-- Interpretation of the numeric strings Python's `float` accepts among the
captures of `[-\d.]+`: an optional minus sign, then digits with at most one
decimal point and at least one digit.  `none` models a `ValueError`. -/
def pyFloat? (s : List Char) : Option ℚ :=
  let core := fun (l : List Char) (neg : Bool) =>
    let d1 := l.takeWhile Char.isDigit
    let r1 := l.drop d1.length
    match r1 with
    | [] =>
      if d1.isEmpty then none
      else some ((if neg then -1 else 1) * (d1.foldl (fun a c => a * 10 + (c.toNat - 48)) 0 : ℚ))
    | '.' :: r2 =>
      let d2 := r2.takeWhile Char.isDigit
      if (r2.drop d2.length).isEmpty then
        if d1.isEmpty && d2.isEmpty then none
        else
          some ((if neg then -1 else 1) *
            ((d1.foldl (fun a c => a * 10 + (c.toNat - 48)) 0 : ℚ) +
              (d2.foldl (fun a c => a * 10 + (c.toNat - 48)) 0 : ℚ) / (10 : ℚ) ^ d2.length))
      else none
    | _ => none
  match s with
  | '-' :: rest => core rest true
  | _ => core s false

/-- Value of a DMS capture group: the source does
`float(x.replace(',', '.'))`, and the captures are always well-formed, so the
fallback value is never reached on strings produced by the matcher. -/
def ratOfDmsCapture (s : List Char) : ℚ :=
  match pyFloat? (s.map (fun c => if c = ',' then '.' else c)) with
  | some q => q
  | none => 0

/-- Banker's rounding to an integer, the semantics of Python's `round`. -/
def pyRound (q : ℚ) : ℤ :=
  if q - (⌊q⌋ : ℚ) < 1/2 then ⌊q⌋
  else if 1/2 < q - (⌊q⌋ : ℚ) then ⌊q⌋ + 1
  else if ⌊q⌋ % 2 = 0 then ⌊q⌋ else ⌊q⌋ + 1

/-- Python's `round(q, 6)`. -/
def round6 (q : ℚ) : ℚ := (pyRound (q * 1000000) : ℚ) / 1000000

/-- Typed representation of a geographic point (`models.Point`). -/
structure Point where
  name : String
  lon : ℚ
  lat : ℚ
deriving DecidableEq

/-- A pyproj transformer abstracted as a pure binary function on coordinates,
returning a coordinate pair.  `parse_msk_coordinates` calls it as
`transform(y, x) = (lon, lat)`; the SK-42 pipeline as
`transform(lat, lon) = (lat, lon)`. -/
abbrev Transformer := ℚ → ℚ → ℚ × ℚ

/-- `_validate_wgs84_range` of the source. -/
def validate_wgs84_range (lat lon : ℚ) : Bool :=
  decide (-90 ≤ lat ∧ lat ≤ 90 ∧ -180 ≤ lon ∧ lon ≤ 180)

/-- `looks_like_dms` of the source. -/
def looks_like_dms (s : List Char) : Bool := s.contains '°'

/-- `looks_like_msk` of the source. -/
def looks_like_msk (s : List Char) : Bool :=
  (containsSub " м.".data s || containsSub ", м.".data s || endsWithChars "м.".data s)
    && !s.contains '°'

/-- `_should_prioritize_dms` of the source: `'гск' in coord_str.lower()`. -/
def should_prioritize_dms (s : List Char) : Bool :=
  containsSub "гск".data (s.map pyLower)

/-- One step of `_has_standalone_token`'s scan: `prev` is the character just
before the current position (used for the negative look-behind). -/
def standaloneTokenScan (tok : List Char) : Option Char → List Char → Bool
  | _, [] => false
  | prev, c :: cs =>
    ((match prev with
      | none => true
      | some p => !isTokenAlpha p) &&
     startsWithCI tok (c :: cs) &&
     (match (c :: cs).drop tok.length with
      | [] => true
      | d :: _ => !isTokenAlpha d))
    || standaloneTokenScan tok (some c) cs

/-- `_has_standalone_token` of the source: the token occurs case-insensitively
with no letter of `[A-Za-zА-Яа-яЁё]` directly before or after it. -/
def has_standalone_token (text tok : List Char) : Bool :=
  standaloneTokenScan tok none text

/-- Captured groups of one `DMS_COORD_PATTERN` match. -/
structure DmsTriple where
  deg : List Char
  minu : List Char
  sec : List Char
deriving DecidableEq

/-- Degree symbols `[°º]`. -/
def isDegSym (c : Char) : Bool := c == '°' || c == 'º'

/-- Minute symbols `['′΄]`. -/
def isMinSym (c : Char) : Bool := c == '\'' || c == '′' || c == '΄'

/-- Second symbols `["″′˝]`. -/
def isSecSym (c : Char) : Bool :=
  c == '\"' || c == '″' || c == '′' || c == '˝'

/-- Tail of the seconds group after its integer digits: an optional
`[.,]\d+` fraction, then a seconds symbol.  Returns the characters the
fraction adds to the capture and the number of characters consumed. -/
def matchSecondsTail : List Char → Option (List Char × Nat)
  | [] => none
  | c :: r =>
    if isSecSym c then some ([], 1)
    else if c = '.' ∨ c = ',' then
      let f := r.takeWhile Char.isDigit
      if f.isEmpty then none
      else
        match r.drop f.length with
        | c2 :: _ => if isSecSym c2 then some (c :: f, f.length + 2) else none
        | [] => none
    else none

/-- Match of `DMS_COORD_PATTERN` anchored at the head of `l`: returns the
three captures and the number of characters consumed.  The pattern is
deterministic: every quantified class is disjoint from what must follow it,
so greedy maximal munch is the unique match. -/
def matchDmsCoordAt (l : List Char) : Option (DmsTriple × Nat) :=
  let d := l.takeWhile Char.isDigit
  if d.isEmpty then none
  else
    match l.drop d.length with
    | [] => none
    | c1 :: r1 =>
      if isDegSym c1 then
        let w1 := r1.takeWhile Char.isWhitespace
        let r1b := r1.drop w1.length
        let m := r1b.takeWhile Char.isDigit
        if m.isEmpty then none
        else
          match r1b.drop m.length with
          | [] => none
          | c2 :: r2 =>
            if isMinSym c2 then
              let w2 := r2.takeWhile Char.isWhitespace
              let r2b := r2.drop w2.length
              let sd := r2b.takeWhile Char.isDigit
              if sd.isEmpty then none
              else
                match matchSecondsTail (r2b.drop sd.length) with
                | some (frac, tailLen) =>
                  some (⟨d, m, sd ++ frac⟩,
                    d.length + 1 + w1.length + m.length + 1 + w2.length + sd.length + tailLen)
                | none => none
            else none
      else none

/-- Match of `DMS_POINT_PATTERN` (`(\d+)[:.]\s*(?=\d+[°º])`) anchored at the
head of `l`: the capture and the consumed length (the look-ahead consumes
nothing). -/
def matchDmsPointAt (l : List Char) : Option (List Char × Nat) :=
  let d := l.takeWhile Char.isDigit
  if d.isEmpty then none
  else
    match l.drop d.length with
    | [] => none
    | c :: r =>
      if c = ':' ∨ c = '.' then
        let w := r.takeWhile Char.isWhitespace
        let r2 := r.drop w.length
        let d2 := r2.takeWhile Char.isDigit
        if d2.isEmpty then none
        else
          match r2.drop d2.length with
          | [] => none
          | c2 :: _ => if isDegSym c2 then some (d, d.length + 1 + w.length) else none
      else none

/-- Match of `MSK_COORD_PATTERN` (`(\d+):\s*([-\d.]+)\s*м\.,\s*([-\d.]+)\s*м\.`)
anchored at the head of `l`. -/
def matchMskCoordAt (l : List Char) : Option ((List Char × List Char × List Char) × Nat) :=
  let i := l.takeWhile Char.isDigit
  if i.isEmpty then none
  else
    match l.drop i.length with
    | ':' :: r1 =>
      let w1 := r1.takeWhile Char.isWhitespace
      let r1b := r1.drop w1.length
      let x := r1b.takeWhile (fun c => c == '-' || c == '.' || c.isDigit)
      if x.isEmpty then none
      else
        let r2 := r1b.drop x.length
        let w2 := r2.takeWhile Char.isWhitespace
        match r2.drop w2.length with
        | 'м' :: '.' :: ',' :: r3 =>
          let w3 := r3.takeWhile Char.isWhitespace
          let r3b := r3.drop w3.length
          let y := r3b.takeWhile (fun c => c == '-' || c == '.' || c.isDigit)
          if y.isEmpty then none
          else
            let r4 := r3b.drop y.length
            let w4 := r4.takeWhile Char.isWhitespace
            match r4.drop w4.length with
            | 'м' :: '.' :: _ =>
              some ((i, x, y),
                i.length + 1 + w1.length + x.length + w2.length + 3 +
                  w3.length + y.length + w4.length + 2)
            | _ => none
        | _ => none
    | _ => none

/-- `re.findall` for an anchored matcher `m`: scan left to right, emitting
non-overlapping matches.  Every matcher used here consumes at least one
character per match, so fuel equal to the input length suffices. -/
def regexFindAll {α : Type} (m : List Char → Option (α × Nat)) : Nat → List Char → List α
  | 0, _ => []
  | _ + 1, [] => []
  | fuel + 1, c :: cs =>
    match m (c :: cs) with
    | some (a, n) => a :: regexFindAll m fuel ((c :: cs).drop (max n 1))
    | none => regexFindAll m fuel cs

/-- All `DMS_COORD_PATTERN` matches of a string. -/
def dmsCoordFindAll (s : List Char) : List DmsTriple :=
  regexFindAll matchDmsCoordAt s.length s

/-- All `DMS_POINT_PATTERN` matches of a string. -/
def dmsPointFindAll (s : List Char) : List (List Char) :=
  regexFindAll matchDmsPointAt s.length s

/-- All `MSK_COORD_PATTERN` matches of a string. -/
def mskCoordFindAll (s : List Char) : List (List Char × List Char × List Char) :=
  regexFindAll matchMskCoordAt s.length s

/-- First match of `ALT_POINT_PATTERN` (`точка\s*(\d+)`, `re.IGNORECASE`) via
`re.search`: leftmost occurrence, capture is the maximal digit run. -/
def altPointSearch : List Char → Option (List Char)
  | [] => none
  | c :: cs =>
    (if startsWithCI "точка".data (c :: cs) then
      let r2 := ((c :: cs).drop 5).dropWhile Char.isWhitespace
      let d := r2.takeWhile Char.isDigit
      if d.isEmpty then none else some d
    else none).orElse (fun _ => altPointSearch cs)

/-- Python `s.split(';')`. -/
def splitSemi : List Char → List (List Char)
  | [] => [[]]
  | c :: cs =>
    if c = ';' then [] :: splitSemi cs
    else
      match splitSemi cs with
      | [] => [[c]]
      | h :: t => (c :: h) :: t

/-- The stripped, non-empty `';'`-separated parts of the input
(`_extract_dms_matches`, first line). -/
def dmsParts (s : List Char) : List (List Char) :=
  ((splitSemi s).map pyStrip).filter (fun p => !p.isEmpty)

/-- One element of `all_dms_coords` in `_extract_dms_matches`: a coordinate
match plus the part it came from and that part's index. -/
structure DmsMatch where
  coord : DmsTriple
  part : List Char
  part_index : Nat
deriving DecidableEq

/-- The concatenated, ordered list `all_dms_coords` of `_extract_dms_matches`. -/
def extract_dms_matches (s : List Char) : List DmsMatch :=
  (dmsParts s).enum.flatMap (fun ip => (dmsCoordFindAll ip.2).map (fun t => ⟨t, ip.2, ip.1⟩))

/-- `point_numbers_by_part` of `_extract_dms_matches`, as a total function:
the source stores the marker list only when non-empty and reads it back with
`.get(idx, [])`, which is the same as computing it directly. -/
def dmsMapping (s : List Char) (idx : Nat) : List (List Char) :=
  match (dmsParts s).get? idx with
  | some p => dmsPointFindAll p
  | none => []

/-- `_dms_tuple_to_decimal`:
`sum(float(x.replace(',', '.')) / 60 ** k for k, x in enumerate(d))`. -/
def dms_tuple_to_decimal (t : DmsTriple) : ℚ :=
  ([t.deg, t.minu, t.sec].enum.map (fun kx => ratOfDmsCapture kx.2 / (60 : ℚ) ^ kx.1)).sum

/-- `_derive_point_name` of the source. -/
def derive_point_name (part_idx pair_idx : Nat) (mapping : Nat → List (List Char))
    (part_text : List Char) : String :=
  match (mapping part_idx).get? pair_idx with
  | some n => "точка " ++ String.mk n
  | none =>
    match altPointSearch part_text with
    | some n => "точка " ++ String.mk n
    | none => "точка " ++ Nat.repr (pair_idx + 1)

/-- The `(lat, lon)` a pair of DMS matches produces after hemisphere signs
(`parse_dms_coordinates`, lines 123–138). -/
def dmsSignedPair (a b : DmsMatch) : ℚ × ℚ :=
  let lat0 := dms_tuple_to_decimal a.coord
  let lon0 := dms_tuple_to_decimal b.coord
  let combined := a.part ++ (' ' :: b.part)
  let lat :=
    if has_standalone_token combined "ЮШ".data || has_standalone_token combined "S".data
    then -lat0 else lat0
  let lon :=
    if has_standalone_token combined "ЗД".data || has_standalone_token combined "W".data
    then -lon0 else lon0
  (lat, lon)

/-- Rendering of a number inside an error message.  The source interpolates
Python's float repr; only the surrounding fixed text matters to the claims. -/
def ratRepr (q : ℚ) : String := toString q

/-- The `ParseError` reason for an out-of-range DMS pair, as re-wrapped by the
`except` clause of `parse_dms_coordinates`. -/
def dmsPairError (lat lon : ℚ) : String :=
  "Внутренняя ошибка при обработке пары ДМС: " ++
    ("Координаты ДМС вне допустимого диапазона WGS84 (lat=" ++ ratRepr lat ++
      ", lon=" ++ ratRepr lon ++ ").") ++ "."

/-- The odd-count `ParseError` reason of `parse_dms_coordinates`. -/
def oddCountReason (n : Nat) : String :=
  "Нечетное количество найденных ДМС координат (" ++ Nat.repr n ++
    "). Ожидается пара (широта, долгота)."

/-- Consecutive pairing: `range(0, len, 2)` with `[j]`, `[j+1]`. -/
def pairUp {α : Type} : List α → List (α × α)
  | a :: b :: t => (a, b) :: pairUp t
  | _ => []

/-- The point built for a kept pair (name derivation plus 6-decimal
rounding). -/
def mkDmsPoint (mapping : Nat → List (List Char)) (pair_idx : Nat) (a : DmsMatch)
    (v : ℚ × ℚ) : Point :=
  ⟨derive_point_name a.part_index pair_idx mapping a.part, round6 v.2, round6 v.1⟩

/-- The main loop of `parse_dms_coordinates` over the pair list; the counter
is the running pair index `j // 2`. -/
def processDmsPairs (mapping : Nat → List (List Char)) :
    Nat → List (DmsMatch × DmsMatch) → Except String (List Point)
  | _, [] => .ok []
  | k, ab :: rest =>
    let v := dmsSignedPair ab.1 ab.2
    if validate_wgs84_range v.1 v.2 then
      match processDmsPairs mapping (k + 1) rest with
      | .ok tail =>
        if v.1 ≠ 0 ∨ v.2 ≠ 0 then .ok (mkDmsPoint mapping k ab.1 v :: tail) else .ok tail
      | .error e => .error e
    else .error (dmsPairError v.1 v.2)

/-- `parse_dms_coordinates` of the source. -/
def parse_dms_coordinates (s : List Char) : Except String (List Point) :=
  let all := extract_dms_matches s
  if all.isEmpty then .ok []
  else if all.length % 2 ≠ 0 then .error (oddCountReason all.length)
  else processDmsPairs (dmsMapping s) 0 (pairUp all)

/-- The `ValueError` text of a failed Python `float` call. -/
def floatValueError (s : List Char) : String :=
  "could not convert string to float: '" ++ String.mk s ++ "'"

/-- The wrapping applied by the `except` clause of `parse_msk_coordinates`. -/
def mskTransformError (xs ys : List Char) (detail : String) : String :=
  "Ошибка трансформации МСК координат: " ++ detail ++ ". Исходные: x='" ++
    String.mk xs ++ "', y='" ++ String.mk ys ++ "'."

/-- The out-of-range reason raised inside the loop of `parse_msk_coordinates`. -/
def mskRangeReason (lat lon : ℚ) : String :=
  "Координаты МСК вне допустимого диапазона WGS84 (lat=" ++ ratRepr lat ++
    ", lon=" ++ ratRepr lon ++ ") после трансформации."

/-- The loop of `parse_msk_coordinates` over the regex matches. -/
def processMskMatches (t : Transformer) :
    List (List Char × List Char × List Char) → Except String (List Point)
  | [] => .ok []
  | (i, xs, ys) :: rest =>
    match pyFloat? xs with
    | none => .error (mskTransformError xs ys (floatValueError xs))
    | some x =>
      match pyFloat? ys with
      | none => .error (mskTransformError xs ys (floatValueError ys))
      | some y =>
        if x = 0 ∧ y = 0 then processMskMatches t rest
        else
          let p := t y x
          if validate_wgs84_range p.2 p.1 then
            match processMskMatches t rest with
            | .ok tail =>
              .ok (⟨"точка " ++ String.mk i, round6 p.1, round6 p.2⟩ :: tail)
            | .error e => .error e
          else .error (mskTransformError xs ys (mskRangeReason p.2 p.1))

/-- `parse_msk_coordinates` of the source (the transformer is the function
argument, exactly as in the Python signature). -/
def parse_msk_coordinates (t : Transformer) (s : List Char) : Except String (List Point) :=
  processMskMatches t (mskCoordFindAll s)

/-- The out-of-range reason of `transform_points_sk42_to_wgs84`. -/
def sk42RangeReason (lat lon : ℚ) : String :=
  "Координаты после преобразования СК-42→WGS84 вне диапазона (lat=" ++ ratRepr lat ++
    ", lon=" ++ ratRepr lon ++ ")."

/-- `transform_points_sk42_to_wgs84` of the source, with the fixed pyproj
pipeline abstracted as the transformer argument `t`
(`transform(lat, lon) = (lat, lon)`). -/
def transform_points_sk42_to_wgs84 (t : Transformer) : List Point → Except String (List Point)
  | [] => .ok []
  | p :: rest =>
    let r := t p.lat p.lon
    if validate_wgs84_range r.1 r.2 then
      match transform_points_sk42_to_wgs84 t rest with
      | .ok tail => .ok (⟨p.name, round6 r.2, round6 r.1⟩ :: tail)
      | .error e => .error e
    else .error (sk42RangeReason r.1 r.2)

/-- The reason string of `detect_coordinate_anomalies`. -/
def anomalyReasonMsg : String :=
  "Обнаружены аномальные координаты, значительно удаленные от других"

/-- `detect_coordinate_anomalies` of `anomalies.py`.  The great-circle metric
(`haversine_distance`, a `math`-library float computation) is abstracted as
the parameter `dist`; the source applies it as
`dist p q = haversine(p.lat, p.lon, q.lat, q.lon)`. -/
def detect_coordinate_anomalies (dist : Point → Point → ℚ) (threshold_km : ℚ)
    (coordinates : List Point) : Bool × Option String × List (Nat × String × ℚ × ℚ) :=
  if coordinates.length < 3 then (false, none, [])
  else
    let distances := coordinates.enum.map (fun ip =>
      let pds := ((coordinates.enum.filter (fun jp => jp.1 ≠ ip.1)).map
        (fun jp => dist ip.2 jp.2))
      (ip.1, pds.sum / (pds.length : ℚ)))
    let anomalous_points := distances.filterMap (fun ia =>
      if threshold_km < ia.2 then
        let p := coordinates.getD ia.1 ⟨"", 0, 0⟩
        some (ia.1, p.name, p.lon, p.lat)
      else none)
    if !anomalous_points.isEmpty then (true, some anomalyReasonMsg, anomalous_points)
    else (false, none, [])

/-- The anomaly gate shared by the branches of `parse_coordinates`: raises
the detector's reason when the set is anomalous. -/
def runAnomalyCheck (dist : Point → Point → ℚ) (th : ℚ) (pts : List Point) :
    Except String (List Point) :=
  let r := detect_coordinate_anomalies dist th pts
  if r.1 then .error (r.2.1.getD "") else .ok pts

/-- `_detect_system_key_for_string` of the source, with the contents of
`objects_info.json` passed as `info`. -/
def detect_system_key_for_string (info : List (String × List String)) (s : List Char) :
    Option String :=
  let t := pyStrip s
  info.findSome? (fun kv => if kv.2.any (fun e => pyStrip e.data == t) then some kv.1 else none)

/-- The unrecognized-system `ParseError` reason of the metric-grid branch of
`parse_coordinates`. -/
def mskNotFoundMsg : String :=
  "Обнаружены координаты 'м.', но не найдена известная система координат МСК в строке."

/-- Steps 5–7 of the dispatcher: the degree-symbol check, DMS parsing and the
anomaly gate (`parse_coordinates`, lines 310–328). -/
def dmsDispatch (dist : Point → Point → ℚ) (th : ℚ) (c : List Char) :
    Except String (List Point) :=
  if !c.contains '°' then .ok []
  else
    match parse_dms_coordinates c with
    | .error e => .error e
    | .ok pts =>
      if !pts.isEmpty && decide (3 ≤ pts.length) then runAnomalyCheck dist th pts
      else .ok pts

/-- The metric-grid branch of the dispatcher (`parse_coordinates`,
lines 285–308), with the loaded transformer table passed as `ts`. -/
def mskDispatch (dist : Point → Point → ℚ) (th : ℚ) (ts : List (String × Transformer))
    (c : List Char) : Except String (List Point) :=
  match ts.find? (fun kv => containsSub kv.1.data c) with
  | some kv =>
    match parse_msk_coordinates kv.2 c with
    | .error e => .error e
    | .ok pts =>
      if !pts.isEmpty && decide (3 ≤ pts.length) then runAnomalyCheck dist th pts
      else .ok pts
  | none => .error mskNotFoundMsg

/-- The notation-detection sequence of the dispatcher after the catalog
lookup: the `гск` marker check, the metric-grid branch, and the DMS fallback
(`parse_coordinates`, lines 282–328). -/
def restDispatch (dist : Point → Point → ℚ) (th : ℚ) (ts : List (String × Transformer))
    (c : List Char) : Except String (List Point) :=
  if should_prioritize_dms c then dmsDispatch dist th c
  else if looks_like_msk c then mskDispatch dist th ts c
  else dmsDispatch dist th c

/-- The SK-42 branch of the dispatcher (`parse_coordinates`, lines 263–277). -/
def sk42Dispatch (dist : Point → Point → ℚ) (th : ℚ) (sk : Transformer) (c : List Char) :
    Except String (List Point) :=
  match parse_dms_coordinates c with
  | .error e => .error e
  | .ok [] => .ok []
  | .ok pts =>
    match transform_points_sk42_to_wgs84 sk pts with
    | .error e => .error e
    | .ok tr =>
      if decide (3 ≤ tr.length) then runAnomalyCheck dist th tr else .ok tr

/-- `parse_coordinates` of the source.  Parameters abstract the externals:
`dist` the haversine metric, `info` the catalog `objects_info.json`, `ts` the
loaded projection registry, `sk` the SK-42→WGS84 pipeline, `th` the
configured anomaly threshold. -/
def parse_coordinates (dist : Point → Point → ℚ) (info : List (String × List String))
    (ts : List (String × Transformer)) (sk : Transformer) (th : ℚ) (s : List Char) :
    Except String (List Point) :=
  let c := pyStrip s
  if c.isEmpty then .ok []
  else
    match detect_system_key_for_string info c with
    | some key =>
      if pyUpperStr (String.mk (pyStrip key.data)) = "СК-42" then sk42Dispatch dist th sk c
      else restDispatch dist th ts c
    | none => restDispatch dist th ts c

/-- Does `\s+зона\s+\d+\b` match at the head of `l`?  (The tail of
`get_transformers`' zone regex after the lazy group.) -/
def zoneRestMatches (l : List Char) : Bool :=
  let w1 := l.takeWhile Char.isWhitespace
  if w1.isEmpty then false
  else
    let r1 := l.drop w1.length
    if startsWithChars "зона".data r1 then
      let r2 := r1.drop 4
      let w2 := r2.takeWhile Char.isWhitespace
      if w2.isEmpty then false
      else
        let r3 := r2.drop w2.length
        let d := r3.takeWhile Char.isDigit
        if d.isEmpty then false
        else
          match (r3.drop d.length).head? with
          | none => true
          | some c => !isWordChar c
    else false

/-- The lazy `[^з]+?` of the zone regex: consume the shortest non-empty run
of characters other than `з` after which the rest of the pattern matches. -/
def zoneLazyScan (pre : List Char) : List Char → Option (List Char)
  | [] => none
  | c :: cs =>
    if c = 'з' then none
    else if zoneRestMatches cs then some (pre ++ [c])
    else zoneLazyScan (pre ++ [c]) cs

/-- `re.match` of `^(МСК-[^з]+?)\s+зона\s+\d+\b` followed by `.strip()` of
group 1, as in `get_transformers`. -/
def zonePrefixOf (name : List Char) : Option (List Char) :=
  if startsWithChars "МСК-".data name then
    (zoneLazyScan [] (name.drop 4)).map (fun g => pyStrip ("МСК-".data ++ g))
  else none

/-- `msk_groups.setdefault(prefix, []).append(name)` on an insertion-ordered
association list. -/
def sdAppend : List (String × List String) → String → String → List (String × List String)
  | [], k, v => [(k, [v])]
  | (k', vs) :: t, k, v =>
    if k' = k then (k', vs ++ [v]) :: t else (k', vs) :: sdAppend t k v

/-- The grouping loop of `get_transformers` over the registry's key list. -/
def mskGroupsGo : List (String × List String) → List String → List (String × List String)
  | acc, [] => acc
  | acc, n :: rest =>
    match zonePrefixOf n.data with
    | some p => mskGroupsGo (sdAppend acc (String.mk p) n) rest
    | none => mskGroupsGo acc rest

/-- `msk_groups` of `get_transformers`. -/
def mskGroups (names : List String) : List (String × List String) :=
  mskGroupsGo [] names

/-- First-match lookup on an association list (Python dict read, the dict
being insertion-ordered with unique keys). -/
def lookupKey {β : Type} : List (String × β) → String → Option β
  | [], _ => none
  | (k, v) :: t, key => if k = key then some v else lookupKey t key

/-- The alias-adding loop of `get_transformers`: for each prefix group with
exactly one member whose prefix is not yet a key, append the alias mapping to
that member's definition.  `acc` is the mutated `proj4_strings` dict. -/
def addMskAliasesGo : List (String × List String) → List (String × String) →
    List (String × String)
  | [], acc => acc
  | g :: rest, acc =>
    addMskAliasesGo rest
      (if g.2.length = 1 then
        match g.2.head? with
        | some full =>
          if (lookupKey acc g.1).isNone then acc ++ [(g.1, (lookupKey acc full).getD "")]
          else acc
        | none => acc
      else acc)

/-- The registry map after the alias-derivation pass of `get_transformers`
(the construction of pyproj transformer objects from the definition strings
is external and preserves keys one-to-one). -/
def addMskAliases (m : List (String × String)) : List (String × String) :=
  addMskAliasesGo (mskGroups (m.map Prod.fst)) m

/-- Spec-side description of a prefix group: the registry names whose zone
prefix is `p`, in registry order. -/
def groupSpec (names : List String) (p : String) : List String :=
  names.filter (fun n => decide ((zonePrefixOf n.data).map String.mk = some p))

/-- Spec-side value of one DMS triple, written as the specification states
it: `deg + min/60 + sec/3600` (with the decimal comma accepted by the
capture interpretation). -/
def specDmsDecimal (t : DmsTriple) : ℚ :=
  ratOfDmsCapture t.deg + ratOfDmsCapture t.minu / 60 + ratOfDmsCapture t.sec / 3600

/-- Spec-side `(lat, lon)` of a pair: the conversion formula plus the
hemisphere rule (standalone `ЮШ`/`S` negates latitude, standalone `ЗД`/`W`
negates longitude, over the combined text of the two source parts). -/
def specSignedPair (a b : DmsMatch) : ℚ × ℚ :=
  let combined := a.part ++ (' ' :: b.part)
  ((if has_standalone_token combined "ЮШ".data || has_standalone_token combined "S".data
    then -specDmsDecimal a.coord else specDmsDecimal a.coord),
   (if has_standalone_token combined "ЗД".data || has_standalone_token combined "W".data
    then -specDmsDecimal b.coord else specDmsDecimal b.coord))

/-- Spec-side list of output coordinate pairs `(lat, lon)`: every pair of
angle matches in order, dropped when the computed pair is exactly `(0, 0)`,
otherwise rounded to 6 decimals. -/
def specDmsCoords (s : List Char) : List (ℚ × ℚ) :=
  (pairUp (extract_dms_matches s)).filterMap (fun ab =>
    let v := specSignedPair ab.1 ab.2
    if v = ((0 : ℚ), (0 : ℚ)) then none else some (round6 v.1, round6 v.2))

/-- Spec-side name of the pair at (global) pair index `k`: the explicit
point-index marker of the pair's part at position `k`, else the textual
`точка N` label found in the part, else the synthesized `точка (k+1)`. -/
def specPointName (a : DmsMatch) (k : Nat) : String :=
  match (dmsPointFindAll a.part).get? k with
  | some n => "точка " ++ String.mk n
  | none =>
    match altPointSearch a.part with
    | some n => "точка " ++ String.mk n
    | none => "точка " ++ Nat.repr (k + 1)

/-- Spec-side list of output point names, indexed by pair position, skipping
dropped `(0, 0)` pairs. -/
def specDmsNamesGo : Nat → List (DmsMatch × DmsMatch) → List String
  | _, [] => []
  | k, ab :: rest =>
    let v := dmsSignedPair ab.1 ab.2
    if v.1 ≠ 0 ∨ v.2 ≠ 0 then specPointName ab.1 k :: specDmsNamesGo (k + 1) rest
    else specDmsNamesGo (k + 1) rest

/-- Spec-side list of output point names for an input string. -/
def specDmsNames (s : List Char) : List String :=
  specDmsNamesGo 0 (pairUp (extract_dms_matches s))

/-- The signed `(lat, lon)` pairs computed (before rounding and before the
zero drop) for every pair of DMS matches of the input. -/
def dmsComputedPairs (s : List Char) : List (ℚ × ℚ) :=
  (pairUp (extract_dms_matches s)).map (fun ab => dmsSignedPair ab.1 ab.2)

/-- The raw `(x, y)` float values of those MSK matches in a match list whose
captures parse as floats. -/
def mskRawOf (l : List (List Char × List Char × List Char)) : List (ℚ × ℚ) :=
  l.filterMap (fun m =>
    match pyFloat? m.2.1, pyFloat? m.2.2 with
    | some x, some y => some (x, y)
    | _, _ => none)

/-- The raw `(x, y)` float values of the MSK matches of an input string. -/
def mskParsedValues (s : List Char) : List (ℚ × ℚ) :=
  mskRawOf (mskCoordFindAll s)

/-- The `(lat, lon)` pairs the MSK loop computes for a match list: transforms
of the parseable raw pairs that are not both exactly zero. -/
def mskComputedOf (t : Transformer) (l : List (List Char × List Char × List Char)) :
    List (ℚ × ℚ) :=
  (mskRawOf l).filterMap (fun xy =>
    if xy.1 = 0 ∧ xy.2 = 0 then none
    else some ((t xy.2 xy.1).2, (t xy.2 xy.1).1))

/-- The `(lat, lon)` pairs the MSK parser computes for an input string. -/
def mskComputedPairs (t : Transformer) (s : List Char) : List (ℚ × ℚ) :=
  mskComputedOf t (mskCoordFindAll s)

/-- The `(lat, lon)` pairs the SK-42 transformation computes for a point
list. -/
def sk42ComputedPairs (t : Transformer) (ps : List Point) : List (ℚ × ℚ) :=
  ps.map (fun p => ((t p.lat p.lon).1, (t p.lat p.lon).2))

/-- Does a parse result respect the WGS84 range on every returned point? -/
def okResultInRange (r : Except String (List Point)) : Bool :=
  match r with
  | .ok pts => pts.all (fun p => validate_wgs84_range p.lat p.lon)
  | .error _ => true

/-- Is a parse result a failure carrying a non-empty reason? -/
def isParseFailure (r : Except String (List Point)) : Bool :=
  match r with
  | .ok _ => false
  | .error e => !(e == "")

/-- The list of points the successful path of the DMS loop produces. -/
def dmsBuild (mp : Nat → List (List Char)) : Nat → List (DmsMatch × DmsMatch) → List Point
  | _, [] => []
  | k, ab :: rest =>
    let v := dmsSignedPair ab.1 ab.2
    if v.1 ≠ 0 ∨ v.2 ≠ 0 then mkDmsPoint mp k ab.1 v :: dmsBuild mp (k + 1) rest
    else dmsBuild mp (k + 1) rest

/-- Number of pairs in a list whose value is not exactly `(0, 0)`. -/
def countNonzeroPairs (l : List (ℚ × ℚ)) : Nat :=
  (l.filter (fun v => !(decide (v.1 = 0) && decide (v.2 = 0)))).length

/-- Spec-side average distance of the point at index `i` to all other points
of the list. -/
def specAvgDist (dist : Point → Point → ℚ) (pts : List Point) (i : Nat) (p : Point) : ℚ :=
  let others := (pts.enum.filter (fun jp => jp.1 ≠ i)).map (fun jp => dist p jp.2)
  others.sum / (others.length : ℚ)

/-- Spec-side flagged list of the anomaly detector: exactly the points whose
average distance to all other points exceeds the threshold. -/
def specFlagged (dist : Point → Point → ℚ) (th : ℚ) (pts : List Point) :
    List (Nat × String × ℚ × ℚ) :=
  pts.enum.filterMap (fun ip =>
    if th < specAvgDist dist pts ip.1 ip.2 then some (ip.1, ip.2.name, ip.2.lon, ip.2.lat)
    else none)

/-!
Helper lemmas, followed by the claim theorems.
-/

theorem pyRound_le {q : ℚ} {n : ℤ} (h : q ≤ (n : ℚ)) : pyRound q ≤ n := by
  have hf : ⌊q⌋ ≤ n := by
    have h1 : ⌊q⌋ ≤ ⌊(n : ℚ)⌋ := Int.floor_le_floor h
    simpa using h1
  unfold pyRound
  split_ifs with h1 h2 h3
  · exact hf
  · have h1' : (1 : ℚ)/2 ≤ q - (⌊q⌋ : ℚ) := not_lt.mp h1
    have hlt : ⌊q⌋ < n := by
      have h4 : (⌊q⌋ : ℚ) < (n : ℚ) := by linarith
      exact_mod_cast h4
    omega
  · exact hf
  · have h1' : (1 : ℚ)/2 ≤ q - (⌊q⌋ : ℚ) := not_lt.mp h1
    have hlt : ⌊q⌋ < n := by
      have h4 : (⌊q⌋ : ℚ) < (n : ℚ) := by linarith
      exact_mod_cast h4
    omega

theorem pyRound_ge {q : ℚ} {n : ℤ} (h : (n : ℚ) ≤ q) : n ≤ pyRound q := by
  have hf : n ≤ ⌊q⌋ := by
    have h1 : ⌊(n : ℚ)⌋ ≤ ⌊q⌋ := Int.floor_le_floor h
    simpa using h1
  unfold pyRound
  split_ifs with h1 h2 h3 <;> omega

theorem round6_le {q : ℚ} {n : ℤ} (h : q ≤ (n : ℚ)) : round6 q ≤ (n : ℚ) := by
  have h1 : q * 1000000 ≤ ((n * 1000000 : ℤ) : ℚ) := by push_cast; nlinarith
  have h2 : pyRound (q * 1000000) ≤ n * 1000000 := pyRound_le h1
  have h3 : (pyRound (q * 1000000) : ℚ) ≤ (n : ℚ) * 1000000 := by exact_mod_cast h2
  unfold round6
  rw [div_le_iff₀ (by norm_num)]
  linarith

theorem round6_ge {q : ℚ} {n : ℤ} (h : (n : ℚ) ≤ q) : (n : ℚ) ≤ round6 q := by
  have h1 : ((n * 1000000 : ℤ) : ℚ) ≤ q * 1000000 := by push_cast; nlinarith
  have h2 : n * 1000000 ≤ pyRound (q * 1000000) := pyRound_ge h1
  have h3 : (n : ℚ) * 1000000 ≤ (pyRound (q * 1000000) : ℚ) := by exact_mod_cast h2
  unfold round6
  rw [le_div_iff₀ (by norm_num)]
  linarith

theorem validate_round6 {lat lon : ℚ} (h : validate_wgs84_range lat lon = true) :
    validate_wgs84_range (round6 lat) (round6 lon) = true := by
  simp only [validate_wgs84_range, decide_eq_true_eq] at h ⊢
  obtain ⟨h1, h2, h3, h4⟩ := h
  refine ⟨?_, ?_, ?_, ?_⟩
  · have := round6_ge (n := -90) (q := lat) (by exact_mod_cast h1)
    exact_mod_cast this
  · have := round6_le (n := 90) (q := lat) (by exact_mod_cast h2)
    exact_mod_cast this
  · have := round6_ge (n := -180) (q := lon) (by exact_mod_cast h3)
    exact_mod_cast this
  · have := round6_le (n := 180) (q := lon) (by exact_mod_cast h4)
    exact_mod_cast this

theorem startsWithChars_append (pat rest : List Char) :
    startsWithChars pat (pat ++ rest) = true := by
  induction pat with
  | nil => rfl
  | cons p ps ih => simp [startsWithChars, ih]

theorem containsSub_here (pat rest : List Char) : containsSub pat (pat ++ rest) = true := by
  cases pat with
  | nil =>
    cases rest with
    | nil => rfl
    | cons c cs => simp [containsSub, startsWithChars]
  | cons p ps =>
    show containsSub (p :: ps) (p :: (ps ++ rest)) = true
    simp only [containsSub, Bool.or_eq_true]
    left
    have h := startsWithChars_append (p :: ps) rest
    simpa using h

theorem containsSub_drop (pre pat l : List Char) (h : containsSub pat l = true) :
    containsSub pat (pre ++ l) = true := by
  induction pre with
  | nil => simpa using h
  | cons c cs ih =>
    show containsSub pat (c :: (cs ++ l)) = true
    simp only [containsSub, Bool.or_eq_true]
    right
    exact ih

theorem containsSub_mid (pre pat post : List Char) :
    containsSub pat (pre ++ (pat ++ post)) = true :=
  containsSub_drop pre pat (pat ++ post) (containsSub_here pat post)

theorem head?_append_of_head {l₁ l₂ : List Char} {c : Char} (h : l₁.head? = some c) :
    (l₁ ++ l₂).head? = some c := by
  cases l₁ with
  | nil => simp at h
  | cons a t => simpa using h

theorem string_ne_of_head {a b : String} (h : a.data.head? ≠ b.data.head?) : a ≠ b :=
  fun e => h (by rw [e])

theorem dmsPairError_head (lat lon : ℚ) : (dmsPairError lat lon).data.head? = some 'В' := by
  unfold dmsPairError
  simp only [String.data_append, List.append_assoc]
  exact head?_append_of_head rfl

theorem oddCountReason_head (n : Nat) : (oddCountReason n).data.head? = some 'Н' := by
  unfold oddCountReason
  simp only [String.data_append, List.append_assoc]
  exact head?_append_of_head rfl

theorem mskTransformError_head (xs ys : List Char) (d : String) :
    (mskTransformError xs ys d).data.head? = some 'О' := by
  unfold mskTransformError
  simp only [String.data_append, List.append_assoc]
  exact head?_append_of_head rfl

theorem sk42RangeReason_head (lat lon : ℚ) :
    (sk42RangeReason lat lon).data.head? = some 'К' := by
  unfold sk42RangeReason
  simp only [String.data_append, List.append_assoc]
  exact head?_append_of_head rfl

theorem string_ne_empty_of_head {a : String} {c : Char} (h : a.data.head? = some c) :
    (a == "") = false := by
  rw [beq_eq_false_iff_ne]
  intro e
  rw [e] at h
  simp at h

theorem pairUp_mem {α : Type} : ∀ (l : List α) (ab : α × α), ab ∈ pairUp l →
    ab.1 ∈ l ∧ ab.2 ∈ l
  | x :: y :: t, ab, h => by
    rw [show pairUp (x :: y :: t) = (x, y) :: pairUp t from rfl] at h
    rcases List.mem_cons.mp h with h | h
    · subst h
      exact ⟨List.mem_cons_self _ _, List.mem_cons_of_mem _ (List.mem_cons_self _ _)⟩
    · have ih := pairUp_mem t ab h
      exact ⟨List.mem_cons_of_mem _ (List.mem_cons_of_mem _ ih.1),
        List.mem_cons_of_mem _ (List.mem_cons_of_mem _ ih.2)⟩
  | [], ab, h => by simp [pairUp] at h
  | [x], ab, h => by simp [pairUp] at h

theorem extract_part_lookup {s : List Char} {m : DmsMatch} (h : m ∈ extract_dms_matches s) :
    (dmsParts s).get? m.part_index = some m.part := by
  unfold extract_dms_matches at h
  rw [List.mem_flatMap] at h
  obtain ⟨ip, hip, hm⟩ := h
  rw [List.mem_map] at hm
  obtain ⟨t, _, rfl⟩ := hm
  obtain ⟨i, p⟩ := ip
  rw [List.get?_eq_getElem?]
  exact List.mk_mem_enum_iff_getElem?.mp hip

theorem dmsMapping_part {s : List Char} {m : DmsMatch} (h : m ∈ extract_dms_matches s) :
    dmsMapping s m.part_index = dmsPointFindAll m.part := by
  unfold dmsMapping
  rw [extract_part_lookup h]

theorem tuple_to_decimal_eq (t : DmsTriple) : dms_tuple_to_decimal t = specDmsDecimal t := by
  unfold dms_tuple_to_decimal specDmsDecimal
  simp [List.enum, List.enumFrom]
  ring_nf

theorem signedPair_eq_spec (a b : DmsMatch) : dmsSignedPair a b = specSignedPair a b := by
  unfold dmsSignedPair specSignedPair
  rw [tuple_to_decimal_eq, tuple_to_decimal_eq]

theorem processDmsPairs_ok {mp : Nat → List (List Char)} :
    ∀ (k : Nat) (l : List (DmsMatch × DmsMatch)) (pts : List Point),
    processDmsPairs mp k l = .ok pts →
    pts = dmsBuild mp k l ∧
      ∀ ab ∈ l, validate_wgs84_range (dmsSignedPair ab.1 ab.2).1 (dmsSignedPair ab.1 ab.2).2 = true
  | k, [], pts, h => by
    simp only [processDmsPairs, Except.ok.injEq] at h
    subst h
    exact ⟨rfl, by simp⟩
  | k, ab :: rest, pts, h => by
    simp only [processDmsPairs] at h
    by_cases hv : validate_wgs84_range (dmsSignedPair ab.1 ab.2).1 (dmsSignedPair ab.1 ab.2).2 = true
    · rw [if_pos hv] at h
      cases hr : processDmsPairs mp (k + 1) rest with
      | error e => rw [hr] at h; dsimp only at h; exact absurd h (by simp)
      | ok tail =>
        rw [hr] at h
        dsimp only at h
        obtain ⟨htail, hall⟩ := processDmsPairs_ok (k + 1) rest tail hr
        by_cases hz : (dmsSignedPair ab.1 ab.2).1 ≠ 0 ∨ (dmsSignedPair ab.1 ab.2).2 ≠ 0
        · rw [if_pos hz] at h
          simp only [Except.ok.injEq] at h
          subst h
          refine ⟨?_, ?_⟩
          · show mkDmsPoint mp k ab.1 _ :: tail = dmsBuild mp k (ab :: rest)
            rw [show dmsBuild mp k (ab :: rest) =
              (if (dmsSignedPair ab.1 ab.2).1 ≠ 0 ∨ (dmsSignedPair ab.1 ab.2).2 ≠ 0 then
                mkDmsPoint mp k ab.1 (dmsSignedPair ab.1 ab.2) :: dmsBuild mp (k + 1) rest
              else dmsBuild mp (k + 1) rest) from rfl]
            rw [if_pos hz, htail]
          · intro x hx
            rcases List.mem_cons.mp hx with hx | hx
            · subst hx; exact hv
            · exact hall x hx
        · rw [if_neg hz] at h
          simp only [Except.ok.injEq] at h
          subst h
          refine ⟨?_, ?_⟩
          · show tail = dmsBuild mp k (ab :: rest)
            rw [show dmsBuild mp k (ab :: rest) =
              (if (dmsSignedPair ab.1 ab.2).1 ≠ 0 ∨ (dmsSignedPair ab.1 ab.2).2 ≠ 0 then
                mkDmsPoint mp k ab.1 (dmsSignedPair ab.1 ab.2) :: dmsBuild mp (k + 1) rest
              else dmsBuild mp (k + 1) rest) from rfl]
            rw [if_neg hz, htail]
          · intro x hx
            rcases List.mem_cons.mp hx with hx | hx
            · subst hx; exact hv
            · exact hall x hx
    · rw [if_neg (by simpa using hv)] at h
      exact absurd h (by simp)

theorem processDmsPairs_error_shape {mp : Nat → List (List Char)} :
    ∀ (k : Nat) (l : List (DmsMatch × DmsMatch)) (e : String),
    processDmsPairs mp k l = .error e → ∃ a b, e = dmsPairError a b
  | k, [], e, h => by simp [processDmsPairs] at h
  | k, ab :: rest, e, h => by
    simp only [processDmsPairs] at h
    by_cases hv : validate_wgs84_range (dmsSignedPair ab.1 ab.2).1 (dmsSignedPair ab.1 ab.2).2 = true
    · rw [if_pos hv] at h
      cases hr : processDmsPairs mp (k + 1) rest with
      | error e' =>
        rw [hr] at h
        dsimp only at h
        simp only [Except.error.injEq] at h
        subst h
        exact processDmsPairs_error_shape (k + 1) rest e' hr
      | ok tail =>
        rw [hr] at h
        dsimp only at h
        by_cases hz : (dmsSignedPair ab.1 ab.2).1 ≠ 0 ∨ (dmsSignedPair ab.1 ab.2).2 ≠ 0
        · rw [if_pos hz] at h; exact absurd h (by simp)
        · rw [if_neg hz] at h; exact absurd h (by simp)
    · rw [if_neg (by simpa using hv)] at h
      simp only [Except.error.injEq] at h
      exact ⟨_, _, h.symm⟩

theorem processDmsPairs_error_exists {mp : Nat → List (List Char)} :
    ∀ (k : Nat) (l : List (DmsMatch × DmsMatch)),
    (∃ ab ∈ l, validate_wgs84_range (dmsSignedPair ab.1 ab.2).1 (dmsSignedPair ab.1 ab.2).2 = false) →
    ∃ e, processDmsPairs mp k l = .error e
  | k, [], h => by simp at h
  | k, ab :: rest, h => by
    by_cases hv : validate_wgs84_range (dmsSignedPair ab.1 ab.2).1 (dmsSignedPair ab.1 ab.2).2 = true
    · have hrest : ∃ x ∈ rest,
          validate_wgs84_range (dmsSignedPair x.1 x.2).1 (dmsSignedPair x.1 x.2).2 = false := by
        obtain ⟨x, hx, hbad⟩ := h
        rcases List.mem_cons.mp hx with hx | hx
        · subst hx; rw [hv] at hbad; exact absurd hbad (by simp)
        · exact ⟨x, hx, hbad⟩
      obtain ⟨e, he⟩ := @processDmsPairs_error_exists mp (k + 1) rest hrest
      refine ⟨e, ?_⟩
      simp only [processDmsPairs]
      rw [if_pos hv, he]
    · refine ⟨dmsPairError (dmsSignedPair ab.1 ab.2).1 (dmsSignedPair ab.1 ab.2).2, ?_⟩
      simp only [processDmsPairs]
      rw [if_neg (by simpa using hv)]

theorem dmsBuild_cons (mp : Nat → List (List Char)) (k : Nat) (ab : DmsMatch × DmsMatch)
    (rest : List (DmsMatch × DmsMatch)) :
    dmsBuild mp k (ab :: rest) =
      if (dmsSignedPair ab.1 ab.2).1 ≠ 0 ∨ (dmsSignedPair ab.1 ab.2).2 ≠ 0 then
        mkDmsPoint mp k ab.1 (dmsSignedPair ab.1 ab.2) :: dmsBuild mp (k + 1) rest
      else dmsBuild mp (k + 1) rest := rfl

theorem zero_pair_iff (v : ℚ × ℚ) : v = ((0 : ℚ), (0 : ℚ)) ↔ ¬(v.1 ≠ 0 ∨ v.2 ≠ 0) := by
  rw [Prod.ext_iff]
  tauto

theorem dmsBuild_map_coords (mp : Nat → List (List Char)) :
    ∀ (k : Nat) (l : List (DmsMatch × DmsMatch)),
    (dmsBuild mp k l).map (fun p => (p.lat, p.lon)) =
      l.filterMap (fun ab =>
        let v := specSignedPair ab.1 ab.2
        if v = ((0 : ℚ), (0 : ℚ)) then none else some (round6 v.1, round6 v.2))
  | k, [] => rfl
  | k, ab :: rest => by
    rw [dmsBuild_cons]
    have ih := dmsBuild_map_coords mp (k + 1) rest
    by_cases hz : (dmsSignedPair ab.1 ab.2).1 ≠ 0 ∨ (dmsSignedPair ab.1 ab.2).2 ≠ 0
    · rw [if_pos hz]
      have hnz : ¬(specSignedPair ab.1 ab.2 = ((0 : ℚ), (0 : ℚ))) := by
        rw [← signedPair_eq_spec, zero_pair_iff]
        tauto
      simp only [List.map_cons, List.filterMap_cons, ih]
      rw [if_neg hnz]
      rw [show (mkDmsPoint mp k ab.1 (dmsSignedPair ab.1 ab.2)).lat =
        round6 (dmsSignedPair ab.1 ab.2).1 from rfl]
      rw [show (mkDmsPoint mp k ab.1 (dmsSignedPair ab.1 ab.2)).lon =
        round6 (dmsSignedPair ab.1 ab.2).2 from rfl]
      rw [signedPair_eq_spec]
    · rw [if_neg hz]
      have hznz : specSignedPair ab.1 ab.2 = ((0 : ℚ), (0 : ℚ)) := by
        rw [← signedPair_eq_spec, zero_pair_iff]
        exact hz
      simp only [List.filterMap_cons, ih]
      rw [if_pos hznz]

theorem dmsBuild_map_names (mp : Nat → List (List Char)) :
    ∀ (k : Nat) (l : List (DmsMatch × DmsMatch)),
    (∀ ab ∈ l, mp ab.1.part_index = dmsPointFindAll ab.1.part) →
    (dmsBuild mp k l).map Point.name = specDmsNamesGo k l
  | k, [], _ => rfl
  | k, ab :: rest, hmp => by
    rw [dmsBuild_cons]
    have ih := dmsBuild_map_names mp (k + 1) rest
      (fun x hx => hmp x (List.mem_cons_of_mem _ hx))
    have hname : (mkDmsPoint mp k ab.1 (dmsSignedPair ab.1 ab.2)).name = specPointName ab.1 k := by
      show derive_point_name ab.1.part_index k mp ab.1.part = specPointName ab.1 k
      unfold derive_point_name specPointName
      rw [hmp ab (List.mem_cons_self _ _)]
    by_cases hz : (dmsSignedPair ab.1 ab.2).1 ≠ 0 ∨ (dmsSignedPair ab.1 ab.2).2 ≠ 0
    · rw [if_pos hz]
      rw [show specDmsNamesGo k (ab :: rest) =
        (if (dmsSignedPair ab.1 ab.2).1 ≠ 0 ∨ (dmsSignedPair ab.1 ab.2).2 ≠ 0 then
          specPointName ab.1 k :: specDmsNamesGo (k + 1) rest
        else specDmsNamesGo (k + 1) rest) from rfl]
      rw [if_pos hz]
      simp only [List.map_cons, ih, hname]
    · rw [if_neg hz]
      rw [show specDmsNamesGo k (ab :: rest) =
        (if (dmsSignedPair ab.1 ab.2).1 ≠ 0 ∨ (dmsSignedPair ab.1 ab.2).2 ≠ 0 then
          specPointName ab.1 k :: specDmsNamesGo (k + 1) rest
        else specDmsNamesGo (k + 1) rest) from rfl]
      rw [if_neg hz]
      exact ih

theorem dmsBuild_length (mp : Nat → List (List Char)) :
    ∀ (k : Nat) (l : List (DmsMatch × DmsMatch)),
    (dmsBuild mp k l).length =
      countNonzeroPairs (l.map (fun ab => dmsSignedPair ab.1 ab.2))
  | k, [] => rfl
  | k, ab :: rest => by
    rw [dmsBuild_cons]
    have ih := dmsBuild_length mp (k + 1) rest
    unfold countNonzeroPairs at ih ⊢
    by_cases hz : (dmsSignedPair ab.1 ab.2).1 ≠ 0 ∨ (dmsSignedPair ab.1 ab.2).2 ≠ 0
    · rw [if_pos hz]
      have hb : (!(decide ((dmsSignedPair ab.1 ab.2).1 = 0) &&
          decide ((dmsSignedPair ab.1 ab.2).2 = 0))) = true := by
        rcases hz with hz | hz <;> simp [hz]
      simp only [List.map_cons, List.filter_cons, hb, if_true, List.length_cons, ih]
    · rw [if_neg hz]
      push_neg at hz
      have hb : (!(decide ((dmsSignedPair ab.1 ab.2).1 = 0) &&
          decide ((dmsSignedPair ab.1 ab.2).2 = 0))) = false := by
        simp [hz.1, hz.2]
      simp only [List.map_cons, List.filter_cons, hb, ih]
      simp

theorem dmsBuild_inRange (mp : Nat → List (List Char)) :
    ∀ (k : Nat) (l : List (DmsMatch × DmsMatch)),
    (∀ ab ∈ l, validate_wgs84_range (dmsSignedPair ab.1 ab.2).1 (dmsSignedPair ab.1 ab.2).2 = true) →
    ∀ p ∈ dmsBuild mp k l, validate_wgs84_range p.lat p.lon = true
  | k, [], _ => by simp [dmsBuild]
  | k, ab :: rest, hall => by
    rw [dmsBuild_cons]
    have ih := dmsBuild_inRange mp (k + 1) rest
      (fun x hx => hall x (List.mem_cons_of_mem _ hx))
    by_cases hz : (dmsSignedPair ab.1 ab.2).1 ≠ 0 ∨ (dmsSignedPair ab.1 ab.2).2 ≠ 0
    · rw [if_pos hz]
      intro p hp
      rcases List.mem_cons.mp hp with hp | hp
      · subst hp
        exact validate_round6 (hall ab (List.mem_cons_self _ _))
      · exact ih p hp
    · rw [if_neg hz]
      exact ih

theorem parse_dms_ok {s : List Char} {pts : List Point}
    (h : parse_dms_coordinates s = .ok pts) :
    pts = dmsBuild (dmsMapping s) 0 (pairUp (extract_dms_matches s)) ∧
      ∀ ab ∈ pairUp (extract_dms_matches s),
        validate_wgs84_range (dmsSignedPair ab.1 ab.2).1 (dmsSignedPair ab.1 ab.2).2 = true := by
  unfold parse_dms_coordinates at h
  by_cases he : (extract_dms_matches s).isEmpty
  · rw [if_pos he] at h
    simp only [Except.ok.injEq] at h
    subst h
    have hnil : extract_dms_matches s = [] := by
      rwa [List.isEmpty_iff] at he
    rw [hnil]
    exact ⟨rfl, by simp [pairUp]⟩
  · rw [if_neg he] at h
    by_cases ho : (extract_dms_matches s).length % 2 ≠ 0
    · rw [if_pos ho] at h
      exact absurd h (by simp)
    · rw [if_neg ho] at h
      exact processDmsPairs_ok 0 (pairUp (extract_dms_matches s)) pts h

theorem parse_dms_error_shape {s : List Char} {e : String}
    (h : parse_dms_coordinates s = .error e) :
    (∃ n, e = oddCountReason n) ∨ ∃ a b, e = dmsPairError a b := by
  unfold parse_dms_coordinates at h
  by_cases he : (extract_dms_matches s).isEmpty
  · rw [if_pos he] at h
    exact absurd h (by simp)
  · rw [if_neg he] at h
    by_cases ho : (extract_dms_matches s).length % 2 ≠ 0
    · rw [if_pos ho] at h
      simp only [Except.error.injEq] at h
      exact Or.inl ⟨_, h.symm⟩
    · rw [if_neg ho] at h
      exact Or.inr (processDmsPairs_error_shape 0 _ e h)

theorem parse_dms_error_nonempty {s : List Char} {e : String}
    (h : parse_dms_coordinates s = .error e) : (e == "") = false := by
  rcases parse_dms_error_shape h with ⟨n, rfl⟩ | ⟨a, b, rfl⟩
  · exact string_ne_empty_of_head (oddCountReason_head n)
  · exact string_ne_empty_of_head (dmsPairError_head a b)

theorem parse_dms_fails_of_bad {s : List Char}
    (h : (dmsComputedPairs s).any (fun v => !validate_wgs84_range v.1 v.2) = true) :
    isParseFailure (parse_dms_coordinates s) = true := by
  have hbad : ∃ ab ∈ pairUp (extract_dms_matches s),
      validate_wgs84_range (dmsSignedPair ab.1 ab.2).1 (dmsSignedPair ab.1 ab.2).2 = false := by
    rw [List.any_eq_true] at h
    obtain ⟨v, hv, hb⟩ := h
    unfold dmsComputedPairs at hv
    rw [List.mem_map] at hv
    obtain ⟨ab, hab, rfl⟩ := hv
    exact ⟨ab, hab, by simpa using hb⟩
  cases hr : parse_dms_coordinates s with
  | ok pts =>
    obtain ⟨_, hall⟩ := parse_dms_ok hr
    obtain ⟨ab, hab, hba⟩ := hbad
    rw [hall ab hab] at hba
    exact absurd hba (by simp)
  | error e =>
    show (!(e == "")) = true
    rw [parse_dms_error_nonempty hr]
    rfl

theorem processMsk_error_shape (t : Transformer) :
    ∀ (l : List (List Char × List Char × List Char)) (e : String),
    processMskMatches t l = .error e → ∃ a b d, e = mskTransformError a b d
  | [], e, h => by simp [processMskMatches] at h
  | (i, xs, ys) :: rest, e, h => by
    simp only [processMskMatches] at h
    cases hx : pyFloat? xs with
    | none =>
      rw [hx] at h
      dsimp only at h
      simp only [Except.error.injEq] at h
      exact ⟨_, _, _, h.symm⟩
    | some x =>
      rw [hx] at h
      dsimp only at h
      cases hy : pyFloat? ys with
      | none =>
        rw [hy] at h
        dsimp only at h
        simp only [Except.error.injEq] at h
        exact ⟨_, _, _, h.symm⟩
      | some y =>
        rw [hy] at h
        dsimp only at h
        by_cases hz : x = 0 ∧ y = 0
        · rw [if_pos hz] at h
          exact processMsk_error_shape t rest e h
        · rw [if_neg hz] at h
          by_cases hv : validate_wgs84_range (t y x).2 (t y x).1 = true
          · rw [if_pos hv] at h
            cases hr : processMskMatches t rest with
            | error e' =>
              rw [hr] at h
              dsimp only at h
              simp only [Except.error.injEq] at h
              subst h
              exact processMsk_error_shape t rest e' hr
            | ok tail =>
              rw [hr] at h
              dsimp only at h
              exact absurd h (by simp)
          · rw [if_neg (by simpa using hv)] at h
            simp only [Except.error.injEq] at h
            exact ⟨_, _, _, h.symm⟩

theorem processMsk_error_nonempty {t : Transformer}
    {l : List (List Char × List Char × List Char)} {e : String}
    (h : processMskMatches t l = .error e) : (e == "") = false := by
  obtain ⟨a, b, d, rfl⟩ := processMsk_error_shape t l e h
  exact string_ne_empty_of_head (mskTransformError_head a b d)

theorem processMsk_ok_inRange (t : Transformer) :
    ∀ (l : List (List Char × List Char × List Char)) (pts : List Point),
    processMskMatches t l = .ok pts → ∀ p ∈ pts, validate_wgs84_range p.lat p.lon = true
  | [], pts, h => by
    simp only [processMskMatches, Except.ok.injEq] at h
    subst h
    simp
  | (i, xs, ys) :: rest, pts, h => by
    simp only [processMskMatches] at h
    cases hx : pyFloat? xs with
    | none => rw [hx] at h; dsimp only at h; exact absurd h (by simp)
    | some x =>
      rw [hx] at h
      dsimp only at h
      cases hy : pyFloat? ys with
      | none => rw [hy] at h; dsimp only at h; exact absurd h (by simp)
      | some y =>
        rw [hy] at h
        dsimp only at h
        by_cases hz : x = 0 ∧ y = 0
        · rw [if_pos hz] at h
          exact processMsk_ok_inRange t rest pts h
        · rw [if_neg hz] at h
          by_cases hv : validate_wgs84_range (t y x).2 (t y x).1 = true
          · rw [if_pos hv] at h
            cases hr : processMskMatches t rest with
            | error e => rw [hr] at h; dsimp only at h; exact absurd h (by simp)
            | ok tail =>
              rw [hr] at h
              dsimp only at h
              simp only [Except.ok.injEq] at h
              subst h
              intro p hp
              rcases List.mem_cons.mp hp with hp | hp
              · subst hp
                exact validate_round6 hv
              · exact processMsk_ok_inRange t rest tail hr p hp
          · rw [if_neg (by simpa using hv)] at h
            exact absurd h (by simp)

theorem mskRawOf_cons_somes {xs ys : List Char} {x y : ℚ} (i : List Char)
    (rest : List (List Char × List Char × List Char))
    (hx : pyFloat? xs = some x) (hy : pyFloat? ys = some y) :
    mskRawOf ((i, xs, ys) :: rest) = (x, y) :: mskRawOf rest := by
  unfold mskRawOf
  rw [List.filterMap_cons]
  dsimp only
  rw [hx, hy]

theorem processMsk_ok_length (t : Transformer) :
    ∀ (l : List (List Char × List Char × List Char)) (pts : List Point),
    processMskMatches t l = .ok pts → pts.length = countNonzeroPairs (mskRawOf l)
  | [], pts, h => by
    simp only [processMskMatches, Except.ok.injEq] at h
    subst h
    rfl
  | (i, xs, ys) :: rest, pts, h => by
    simp only [processMskMatches] at h
    cases hx : pyFloat? xs with
    | none => rw [hx] at h; dsimp only at h; exact absurd h (by simp)
    | some x =>
      rw [hx] at h
      dsimp only at h
      cases hy : pyFloat? ys with
      | none => rw [hy] at h; dsimp only at h; exact absurd h (by simp)
      | some y =>
        rw [hy] at h
        dsimp only at h
        rw [mskRawOf_cons_somes i rest hx hy]
        by_cases hz : x = 0 ∧ y = 0
        · rw [if_pos hz] at h
          have ih := processMsk_ok_length t rest pts h
          unfold countNonzeroPairs at ih ⊢
          have hb : (!(decide ((x, y).1 = 0) && decide ((x, y).2 = 0))) = false := by
            simp [hz.1, hz.2]
          rw [List.filter_cons]
          rw [hb]
          simpa using ih
        · rw [if_neg hz] at h
          by_cases hv : validate_wgs84_range (t y x).2 (t y x).1 = true
          · rw [if_pos hv] at h
            cases hr : processMskMatches t rest with
            | error e => rw [hr] at h; dsimp only at h; exact absurd h (by simp)
            | ok tail =>
              rw [hr] at h
              dsimp only at h
              simp only [Except.ok.injEq] at h
              subst h
              have ih := processMsk_ok_length t rest tail hr
              unfold countNonzeroPairs at ih ⊢
              have hb : (!(decide ((x, y).1 = 0) && decide ((x, y).2 = 0))) = true := by
                rcases not_and_or.mp hz with hz | hz <;> simp [hz]
              rw [List.filter_cons]
              rw [hb]
              simpa using ih
          · rw [if_neg (by simpa using hv)] at h
            exact absurd h (by simp)

theorem mskComputedOf_cons_somes {xs ys : List Char} {x y : ℚ} (t : Transformer) (i : List Char)
    (rest : List (List Char × List Char × List Char))
    (hx : pyFloat? xs = some x) (hy : pyFloat? ys = some y) :
    mskComputedOf t ((i, xs, ys) :: rest) =
      (if x = 0 ∧ y = 0 then mskComputedOf t rest
       else ((t y x).2, (t y x).1) :: mskComputedOf t rest) := by
  unfold mskComputedOf
  rw [mskRawOf_cons_somes i rest hx hy]
  rw [List.filterMap_cons]
  by_cases hz : x = 0 ∧ y = 0
  · rw [if_pos hz]
    dsimp only
    rw [if_pos hz]
  · rw [if_neg hz]
    dsimp only
    rw [if_neg hz]

theorem processMsk_fails_of_bad (t : Transformer) :
    ∀ (l : List (List Char × List Char × List Char)),
    (mskComputedOf t l).any (fun v => !validate_wgs84_range v.1 v.2) = true →
    isParseFailure (processMskMatches t l) = true
  | [], h => by simp [mskComputedOf, mskRawOf] at h
  | (i, xs, ys) :: rest, h => by
    cases hx : pyFloat? xs with
    | none =>
      have he : processMskMatches t ((i, xs, ys) :: rest) =
          .error (mskTransformError xs ys (floatValueError xs)) := by
        simp only [processMskMatches]
        rw [hx]
      rw [he]
      show (!((mskTransformError xs ys (floatValueError xs)) == "")) = true
      rw [string_ne_empty_of_head (mskTransformError_head xs ys (floatValueError xs))]
      rfl
    | some x =>
      cases hy : pyFloat? ys with
      | none =>
        have he : processMskMatches t ((i, xs, ys) :: rest) =
            .error (mskTransformError xs ys (floatValueError ys)) := by
          simp only [processMskMatches]
          rw [hx]
          dsimp only
          rw [hy]
        rw [he]
        show (!((mskTransformError xs ys (floatValueError ys)) == "")) = true
        rw [string_ne_empty_of_head (mskTransformError_head xs ys (floatValueError ys))]
        rfl
      | some y =>
        rw [mskComputedOf_cons_somes t i rest hx hy] at h
        by_cases hz : x = 0 ∧ y = 0
        · rw [if_pos hz] at h
          have ih := processMsk_fails_of_bad t rest h
          have he : processMskMatches t ((i, xs, ys) :: rest) = processMskMatches t rest := by
            simp only [processMskMatches]
            rw [hx]
            dsimp only
            rw [hy]
            dsimp only
            rw [if_pos hz]
          rw [he]
          exact ih
        · rw [if_neg hz] at h
          by_cases hv : validate_wgs84_range (t y x).2 (t y x).1 = true
          · have hrest : (mskComputedOf t rest).any (fun v => !validate_wgs84_range v.1 v.2)
                = true := by
              rcases List.any_eq_true.mp h with ⟨v, hvmem, hvbad⟩
              rcases List.mem_cons.mp hvmem with hvmem | hvmem
              · subst hvmem
                rw [hv] at hvbad
                exact absurd hvbad (by simp)
              · exact List.any_eq_true.mpr ⟨v, hvmem, hvbad⟩
            have ih := processMsk_fails_of_bad t rest hrest
            cases hr : processMskMatches t rest with
            | ok tail => rw [hr] at ih; exact absurd ih (by simp [isParseFailure])
            | error e =>
              have he : processMskMatches t ((i, xs, ys) :: rest) = .error e := by
                simp only [processMskMatches]
                rw [hx]
                dsimp only
                rw [hy]
                dsimp only
                rw [if_neg hz, if_pos hv, hr]
              rw [he]
              rw [hr] at ih
              exact ih
          · have he : processMskMatches t ((i, xs, ys) :: rest) =
                .error (mskTransformError xs ys (mskRangeReason (t y x).2 (t y x).1)) := by
              simp only [processMskMatches]
              rw [hx]
              dsimp only
              rw [hy]
              dsimp only
              rw [if_neg hz, if_neg (by simpa using hv)]
            rw [he]
            show (!((mskTransformError xs ys (mskRangeReason (t y x).2 (t y x).1)) == "")) = true
            rw [string_ne_empty_of_head (mskTransformError_head _ _ _)]
            rfl

theorem sk42_error_shape (t : Transformer) :
    ∀ (ps : List Point) (e : String),
    transform_points_sk42_to_wgs84 t ps = .error e → ∃ a b, e = sk42RangeReason a b
  | [], e, h => by simp [transform_points_sk42_to_wgs84] at h
  | p :: rest, e, h => by
    simp only [transform_points_sk42_to_wgs84] at h
    by_cases hv : validate_wgs84_range (t p.lat p.lon).1 (t p.lat p.lon).2 = true
    · rw [if_pos hv] at h
      cases hr : transform_points_sk42_to_wgs84 t rest with
      | error e' =>
        rw [hr] at h
        dsimp only at h
        simp only [Except.error.injEq] at h
        subst h
        exact sk42_error_shape t rest e' hr
      | ok tail =>
        rw [hr] at h
        dsimp only at h
        exact absurd h (by simp)
    · rw [if_neg (by simpa using hv)] at h
      simp only [Except.error.injEq] at h
      exact ⟨_, _, h.symm⟩

theorem sk42_ok_inRange (t : Transformer) :
    ∀ (ps : List Point) (pts : List Point),
    transform_points_sk42_to_wgs84 t ps = .ok pts →
    ∀ p ∈ pts, validate_wgs84_range p.lat p.lon = true
  | [], pts, h => by
    simp only [transform_points_sk42_to_wgs84, Except.ok.injEq] at h
    subst h
    simp
  | p :: rest, pts, h => by
    simp only [transform_points_sk42_to_wgs84] at h
    by_cases hv : validate_wgs84_range (t p.lat p.lon).1 (t p.lat p.lon).2 = true
    · rw [if_pos hv] at h
      cases hr : transform_points_sk42_to_wgs84 t rest with
      | error e => rw [hr] at h; dsimp only at h; exact absurd h (by simp)
      | ok tail =>
        rw [hr] at h
        dsimp only at h
        simp only [Except.ok.injEq] at h
        subst h
        intro q hq
        rcases List.mem_cons.mp hq with hq | hq
        · subst hq
          exact validate_round6 hv
        · exact sk42_ok_inRange t rest tail hr q hq
    · rw [if_neg (by simpa using hv)] at h
      exact absurd h (by simp)

theorem sk42_fails_of_bad (t : Transformer) :
    ∀ (ps : List Point),
    (sk42ComputedPairs t ps).any (fun v => !validate_wgs84_range v.1 v.2) = true →
    isParseFailure (transform_points_sk42_to_wgs84 t ps) = true
  | [], h => by simp [sk42ComputedPairs] at h
  | p :: rest, h => by
    unfold sk42ComputedPairs at h
    rw [List.map_cons] at h
    by_cases hv : validate_wgs84_range (t p.lat p.lon).1 (t p.lat p.lon).2 = true
    · have hrest : (sk42ComputedPairs t rest).any (fun v => !validate_wgs84_range v.1 v.2)
          = true := by
        rcases List.any_eq_true.mp h with ⟨v, hvmem, hvbad⟩
        rcases List.mem_cons.mp hvmem with hvmem | hvmem
        · subst hvmem
          rw [hv] at hvbad
          exact absurd hvbad (by simp)
        · exact List.any_eq_true.mpr ⟨v, hvmem, hvbad⟩
      have ih := sk42_fails_of_bad t rest hrest
      cases hr : transform_points_sk42_to_wgs84 t rest with
      | ok tail => rw [hr] at ih; exact absurd ih (by simp [isParseFailure])
      | error e =>
        have he : transform_points_sk42_to_wgs84 t (p :: rest) = .error e := by
          simp only [transform_points_sk42_to_wgs84]
          rw [if_pos hv, hr]
        rw [he]
        rw [hr] at ih
        exact ih
    · have he : transform_points_sk42_to_wgs84 t (p :: rest) =
          .error (sk42RangeReason (t p.lat p.lon).1 (t p.lat p.lon).2) := by
        simp only [transform_points_sk42_to_wgs84]
        rw [if_neg (by simpa using hv)]
      rw [he]
      show (!((sk42RangeReason (t p.lat p.lon).1 (t p.lat p.lon).2) == "")) = true
      rw [string_ne_empty_of_head (sk42RangeReason_head _ _)]
      rfl

theorem detect_lt3 (dist : Point → Point → ℚ) (th : ℚ) (pts : List Point)
    (h : pts.length < 3) : detect_coordinate_anomalies dist th pts = (false, none, []) := by
  unfold detect_coordinate_anomalies
  rw [if_pos h]

theorem detect_eq (dist : Point → Point → ℚ) (th : ℚ) (pts : List Point)
    (h3 : ¬(pts.length < 3)) :
    detect_coordinate_anomalies dist th pts =
      if !((pts.enum.map (fun ip => (ip.1, specAvgDist dist pts ip.1 ip.2))).filterMap
          (fun ia => if th < ia.2 then
            some (ia.1, (pts.getD ia.1 ⟨"", 0, 0⟩).name, (pts.getD ia.1 ⟨"", 0, 0⟩).lon,
              (pts.getD ia.1 ⟨"", 0, 0⟩).lat)
          else none)).isEmpty then
        (true, some anomalyReasonMsg,
          (pts.enum.map (fun ip => (ip.1, specAvgDist dist pts ip.1 ip.2))).filterMap
            (fun ia => if th < ia.2 then
              some (ia.1, (pts.getD ia.1 ⟨"", 0, 0⟩).name, (pts.getD ia.1 ⟨"", 0, 0⟩).lon,
                (pts.getD ia.1 ⟨"", 0, 0⟩).lat)
            else none))
      else (false, none, []) := by
  unfold detect_coordinate_anomalies
  rw [if_neg h3]
  rfl

theorem detect_anomalous_eq (dist : Point → Point → ℚ) (th : ℚ) (pts : List Point) :
    ((pts.enum.map (fun ip => (ip.1, specAvgDist dist pts ip.1 ip.2))).filterMap
      (fun ia => if th < ia.2 then
        some (ia.1, (pts.getD ia.1 ⟨"", 0, 0⟩).name, (pts.getD ia.1 ⟨"", 0, 0⟩).lon,
          (pts.getD ia.1 ⟨"", 0, 0⟩).lat)
      else none)) = specFlagged dist th pts := by
  rw [List.filterMap_map]
  unfold specFlagged
  apply List.filterMap_congr
  intro ip hip
  obtain ⟨i, p⟩ := ip
  have hg : pts[i]? = some p := List.mk_mem_enum_iff_getElem?.mp hip
  have hgd : pts.getD i ⟨"", 0, 0⟩ = p := by
    rw [List.getD_eq_getElem?_getD, hg]
    rfl
  dsimp only [Function.comp]
  rw [hgd]

theorem detect_snd_eq (dist : Point → Point → ℚ) (th : ℚ) (pts : List Point)
    (h3 : 3 ≤ pts.length) :
    (detect_coordinate_anomalies dist th pts).2.2 = specFlagged dist th pts := by
  rw [detect_eq dist th pts (by omega), detect_anomalous_eq]
  by_cases hA : (specFlagged dist th pts).isEmpty
  · rw [hA]
    have : specFlagged dist th pts = [] := List.isEmpty_iff.mp hA
    simp [this]
  · rw [Bool.eq_false_iff.mpr hA]
    rfl

theorem detect_fst_iff (dist : Point → Point → ℚ) (th : ℚ) (pts : List Point) :
    ((detect_coordinate_anomalies dist th pts).1 = true ↔
      (detect_coordinate_anomalies dist th pts).2.2 ≠ []) := by
  by_cases h3 : pts.length < 3
  · rw [detect_lt3 dist th pts h3]
    simp
  · rw [detect_eq dist th pts h3, detect_anomalous_eq]
    by_cases hA : (specFlagged dist th pts).isEmpty
    · have hnil : specFlagged dist th pts = [] := List.isEmpty_iff.mp hA
      rw [hA]
      simp [hnil]
    · have hnnil : specFlagged dist th pts ≠ [] := by
        intro he
        rw [he] at hA
        exact hA rfl
      rw [Bool.eq_false_iff.mpr hA]
      simp [hnnil]

theorem sum_lt_of_forall_lt :
    ∀ (l : List ℚ) (th : ℚ), l ≠ [] → (∀ x ∈ l, x < th) → l.sum < (l.length : ℚ) * th
  | [], _, h, _ => absurd rfl h
  | [x], th, _, hall => by
    have hx := hall x (by simp)
    simp only [List.sum_cons, List.sum_nil, List.length_cons, List.length_nil]
    push_cast
    linarith
  | x :: y :: t, th, _, hall => by
    have ih := sum_lt_of_forall_lt (y :: t) th (by simp)
      (fun z hz => hall z (List.mem_cons_of_mem _ hz))
    have hx := hall x (List.mem_cons_self _ _)
    simp only [List.sum_cons, List.length_cons] at *
    push_cast
    push_cast at ih
    linarith

theorem specAvg_lt (dist : Point → Point → ℚ) (th : ℚ) (pts : List Point)
    (h3 : 3 ≤ pts.length) (hall : ∀ p ∈ pts, ∀ q ∈ pts, dist p q < th) :
    ∀ ip ∈ pts.enum, specAvgDist dist pts ip.1 ip.2 < th := by
  intro ip hip
  obtain ⟨i, p⟩ := ip
  have hp : p ∈ pts := List.getElem?_mem (List.mk_mem_enum_iff_getElem?.mp hip)
  show specAvgDist dist pts i p < th
  unfold specAvgDist
  have hb0 : 0 < pts.length := by omega
  have hb1 : 1 < pts.length := by omega
  have e0 : (0, pts[0]) ∈ pts.enum :=
    List.mk_mem_enum_iff_getElem?.mpr (List.getElem?_eq_getElem hb0)
  have e1 : (1, pts[1]) ∈ pts.enum :=
    List.mk_mem_enum_iff_getElem?.mpr (List.getElem?_eq_getElem hb1)
  have hne : ((pts.enum.filter (fun jp => jp.1 ≠ i)).map (fun jp => dist p jp.2)) ≠ [] := by
    by_cases hi : i = 0
    · apply List.ne_nil_of_mem (a := dist p pts[1])
      exact List.mem_map.mpr ⟨(1, pts[1]), List.mem_filter.mpr ⟨e1, by simp [hi]⟩, rfl⟩
    · apply List.ne_nil_of_mem (a := dist p pts[0])
      exact List.mem_map.mpr ⟨(0, pts[0]), List.mem_filter.mpr ⟨e0, by simp [Ne.symm hi]⟩, rfl⟩
  have hlt : ∀ x ∈ ((pts.enum.filter (fun jp => jp.1 ≠ i)).map (fun jp => dist p jp.2)),
      x < th := by
    intro x hx
    rw [List.mem_map] at hx
    obtain ⟨jp, hjp, rfl⟩ := hx
    have hjmem : jp.2 ∈ pts := by
      have hje := List.mem_of_mem_filter hjp
      obtain ⟨j, q⟩ := jp
      exact List.getElem?_mem (List.mk_mem_enum_iff_getElem?.mp hje)
    exact hall p hp jp.2 hjmem
  have hlen : (0 : ℚ) <
      (((pts.enum.filter (fun jp => jp.1 ≠ i)).map (fun jp => dist p jp.2)).length : ℚ) := by
    have := List.length_pos.mpr hne
    exact_mod_cast this
  have hsum := sum_lt_of_forall_lt _ th hne hlt
  rw [div_lt_iff₀ hlen]
  linarith

theorem detect_not_fire (dist : Point → Point → ℚ) (th : ℚ) (pts : List Point)
    (hall : ∀ p ∈ pts, ∀ q ∈ pts, dist p q < th) :
    (detect_coordinate_anomalies dist th pts).1 = false := by
  by_cases h3 : pts.length < 3
  · rw [detect_lt3 dist th pts h3]
  · rw [detect_eq dist th pts h3, detect_anomalous_eq]
    have hflag : specFlagged dist th pts = [] := by
      unfold specFlagged
      rw [List.filterMap_eq_nil_iff]
      intro ip hip
      have := specAvg_lt dist th pts (by omega) hall ip hip
      rw [if_neg (not_lt.mpr (le_of_lt this))]
    rw [hflag]
    rfl

theorem detect_true_reason (dist : Point → Point → ℚ) (th : ℚ) (pts : List Point)
    (h : (detect_coordinate_anomalies dist th pts).1 = true) :
    (detect_coordinate_anomalies dist th pts).2.1 = some anomalyReasonMsg := by
  by_cases h3 : pts.length < 3
  · rw [detect_lt3 dist th pts h3] at h
    exact absurd h (by simp)
  · rw [detect_eq dist th pts h3, detect_anomalous_eq] at h ⊢
    by_cases hA : (specFlagged dist th pts).isEmpty
    · rw [hA] at h
      exact absurd h (by simp)
    · rw [Bool.eq_false_iff.mpr hA] at h ⊢
      rfl

theorem lookupKey_append {β : Type} :
    ∀ (a b : List (String × β)) (k : String),
    lookupKey (a ++ b) k =
      match lookupKey a k with
      | some v => some v
      | none => lookupKey b k
  | [], b, k => rfl
  | (k', v') :: t, b, k => by
    show lookupKey ((k', v') :: (t ++ b)) k = _
    by_cases hk : k' = k
    · simp only [lookupKey, if_pos hk]
    · simp only [lookupKey, if_neg hk]
      exact lookupKey_append t b k

theorem lookupKey_none_of_not_mem {β : Type} :
    ∀ (l : List (String × β)) (k : String), k ∉ l.map Prod.fst → lookupKey l k = none
  | [], k, _ => rfl
  | (k', v') :: t, k, h => by
    have hk : k' ≠ k := by
      intro e
      exact h (by simp [e])
    simp only [lookupKey, if_neg hk]
    exact lookupKey_none_of_not_mem t k (fun hm => h (by simp [hm]))

theorem lookupKey_isSome_of_mem {β : Type} :
    ∀ (l : List (String × β)) (k : String), k ∈ l.map Prod.fst → ∃ v, lookupKey l k = some v
  | [], k, h => by simp at h
  | (k', v') :: t, k, h => by
    by_cases hk : k' = k
    · exact ⟨v', by simp only [lookupKey, if_pos hk]⟩
    · have hm : k ∈ t.map Prod.fst := by
        rcases List.mem_map.mp h with ⟨x, hx, hfx⟩
        rcases List.mem_cons.mp hx with hx | hx
        · subst hx; exact absurd hfx hk
        · exact List.mem_map.mpr ⟨x, hx, hfx⟩
      obtain ⟨v, hv⟩ := lookupKey_isSome_of_mem t k hm
      exact ⟨v, by simp only [lookupKey, if_neg hk]; exact hv⟩

theorem lookupKey_mem {β : Type} :
    ∀ (l : List (String × β)) (k : String) (v : β), lookupKey l k = some v → (k, v) ∈ l
  | [], k, v, h => by simp [lookupKey] at h
  | (k', v') :: t, k, v, h => by
    by_cases hk : k' = k
    · simp only [lookupKey, if_pos hk, Option.some.injEq] at h
      subst hk
      subst h
      exact List.mem_cons_self _ _
    · simp only [lookupKey, if_neg hk] at h
      exact List.mem_cons_of_mem _ (lookupKey_mem t k v h)

theorem lookupKey_of_mem_nodup {β : Type} :
    ∀ (l : List (String × β)) (k : String) (v : β),
    (l.map Prod.fst).Nodup → (k, v) ∈ l → lookupKey l k = some v
  | [], k, v, _, h => by simp at h
  | (k', v') :: t, k, v, hnd, h => by
    simp only [List.map_cons, List.nodup_cons] at hnd
    rcases List.mem_cons.mp h with he | hm
    · have hk : k' = k := by
        have h1 := congrArg Prod.fst he
        simpa using h1.symm
      have hv : v' = v := by
        have h1 := congrArg Prod.snd he
        simpa using h1.symm
      show (if k' = k then some v' else lookupKey t k) = some v
      rw [if_pos hk, hv]
    · have hk : ¬(k' = k) := by
        intro e
        subst e
        exact hnd.1 (List.mem_map.mpr ⟨(k', v), hm, rfl⟩)
      show (if k' = k then some v' else lookupKey t k) = some v
      rw [if_neg hk]
      exact lookupKey_of_mem_nodup t k v hnd.2 hm

theorem sdAppend_lookup :
    ∀ (acc : List (String × List String)) (k : String) (v : String) (p : String),
    lookupKey (sdAppend acc k v) p =
      if k = p then some ((lookupKey acc k).getD [] ++ [v]) else lookupKey acc p
  | [], k, v, p => by
    show lookupKey [(k, [v])] p = _
    by_cases hk : k = p
    · rw [if_pos hk]
      show (if k = p then some [v] else lookupKey [] p) = _
      rw [if_pos hk]
      rfl
    · rw [if_neg hk]
      show (if k = p then some [v] else lookupKey [] p) = _
      rw [if_neg hk]
  | (k', vs) :: t, k, v, p => by
    by_cases he : k' = k
    · have hsd : sdAppend ((k', vs) :: t) k v = (k', vs ++ [v]) :: t := by
        show (if k' = k then (k', vs ++ [v]) :: t else (k', vs) :: sdAppend t k v) = _
        rw [if_pos he]
      rw [hsd]
      have hlk : lookupKey ((k', vs) :: t) k = some vs := by
        show (if k' = k then some vs else lookupKey t k) = some vs
        rw [if_pos he]
      by_cases hp : k = p
      · rw [if_pos hp, hlk]
        show (if k' = p then some (vs ++ [v]) else lookupKey t p) = _
        rw [if_pos (he.trans hp)]
        rfl
      · rw [if_neg hp]
        have hk'p : ¬(k' = p) := fun e => hp (he.symm.trans e)
        show (if k' = p then some (vs ++ [v]) else lookupKey t p) =
          lookupKey ((k', vs) :: t) p
        rw [if_neg hk'p]
        show lookupKey t p = (if k' = p then some vs else lookupKey t p)
        rw [if_neg hk'p]
    · have hsd : sdAppend ((k', vs) :: t) k v = (k', vs) :: sdAppend t k v := by
        show (if k' = k then (k', vs ++ [v]) :: t else (k', vs) :: sdAppend t k v) = _
        rw [if_neg he]
      rw [hsd]
      by_cases hp : k' = p
      · have hkp : ¬(k = p) := fun e => he (hp.trans e.symm)
        rw [if_neg hkp]
        show (if k' = p then some vs else lookupKey (sdAppend t k v) p) =
          lookupKey ((k', vs) :: t) p
        rw [if_pos hp]
        show some vs = (if k' = p then some vs else lookupKey t p)
        rw [if_pos hp]
      · show (if k' = p then some vs else lookupKey (sdAppend t k v) p) = _
        rw [if_neg hp]
        rw [sdAppend_lookup t k v p]
        by_cases hk : k = p
        · rw [if_pos hk, if_pos hk]
          have hlk : lookupKey ((k', vs) :: t) k = lookupKey t k := by
            show (if k' = k then some vs else lookupKey t k) = lookupKey t k
            rw [if_neg he]
          rw [hlk]
        · rw [if_neg hk, if_neg hk]
          show lookupKey t p = (if k' = p then some vs else lookupKey t p)
          rw [if_neg hp]

theorem sdAppend_keys :
    ∀ (acc : List (String × List String)) (k : String) (v : String),
    (sdAppend acc k v).map Prod.fst =
      if k ∈ acc.map Prod.fst then acc.map Prod.fst else acc.map Prod.fst ++ [k]
  | [], k, v => by
    rw [if_neg (by simp)]
    rfl
  | (k', vs) :: t, k, v => by
    by_cases he : k' = k
    · have hsd : sdAppend ((k', vs) :: t) k v = (k', vs ++ [v]) :: t := by
        show (if k' = k then (k', vs ++ [v]) :: t else (k', vs) :: sdAppend t k v) = _
        rw [if_pos he]
      rw [hsd]
      rw [if_pos (by simp [he])]
      rfl
    · have hsd : sdAppend ((k', vs) :: t) k v = (k', vs) :: sdAppend t k v := by
        show (if k' = k then (k', vs ++ [v]) :: t else (k', vs) :: sdAppend t k v) = _
        rw [if_neg he]
      rw [hsd]
      simp only [List.map_cons]
      rw [sdAppend_keys t k v]
      by_cases hm : k ∈ t.map Prod.fst
      · rw [if_pos hm, if_pos (by simp [hm])]
      · have hnotin : ¬(k ∈ (k' :: t.map Prod.fst)) := by
          simp only [List.mem_cons]
          push_neg
          exact ⟨fun e => he e.symm, hm⟩
        rw [if_neg hm, if_neg (by simpa using hnotin)]
        simp

theorem sdAppend_keys_nodup (acc : List (String × List String)) (k : String) (v : String)
    (h : (acc.map Prod.fst).Nodup) : ((sdAppend acc k v).map Prod.fst).Nodup := by
  rw [sdAppend_keys]
  by_cases hm : k ∈ acc.map Prod.fst
  · rw [if_pos hm]
    exact h
  · rw [if_neg hm]
    rw [← List.concat_eq_append]
    exact List.Nodup.concat hm h

theorem mskGroupsGo_nil (acc : List (String × List String)) : mskGroupsGo acc [] = acc := rfl

theorem mskGroupsGo_cons (acc : List (String × List String)) (n : String)
    (rest : List String) :
    mskGroupsGo acc (n :: rest) =
      match zonePrefixOf n.data with
      | some p => mskGroupsGo (sdAppend acc (String.mk p) n) rest
      | none => mskGroupsGo acc rest := by
  rw [mskGroupsGo]

theorem mskGroupsGo_keys_nodup :
    ∀ (names : List String) (acc : List (String × List String)),
    (acc.map Prod.fst).Nodup → ((mskGroupsGo acc names).map Prod.fst).Nodup
  | [], acc, h => h
  | n :: rest, acc, h => by
    rw [mskGroupsGo_cons]
    cases hz : zonePrefixOf n.data with
    | none =>
      dsimp only
      exact mskGroupsGo_keys_nodup rest acc h
    | some p =>
      dsimp only
      exact mskGroupsGo_keys_nodup rest _ (sdAppend_keys_nodup acc (String.mk p) n h)

theorem mskGroups_keys_nodup (names : List String) :
    ((mskGroups names).map Prod.fst).Nodup :=
  mskGroupsGo_keys_nodup names [] List.nodup_nil

theorem groupSpec_cons (n : String) (rest : List String) (p : String) :
    groupSpec (n :: rest) p =
      if (zonePrefixOf n.data).map String.mk = some p then n :: groupSpec rest p
      else groupSpec rest p := by
  unfold groupSpec
  rw [List.filter_cons]
  by_cases hc : (zonePrefixOf n.data).map String.mk = some p
  · rw [if_pos hc, if_pos (by simp [hc])]
  · rw [if_neg hc, if_neg (by simp [hc])]

theorem mskGroupsGo_lookup :
    ∀ (names : List String) (acc : List (String × List String)) (p : String),
    lookupKey (mskGroupsGo acc names) p =
      match lookupKey acc p with
      | some vs => some (vs ++ groupSpec names p)
      | none => if groupSpec names p = [] then none else some (groupSpec names p)
  | [], acc, p => by
    rw [mskGroupsGo_nil]
    have hsp : groupSpec [] p = [] := rfl
    rw [hsp]
    cases h : lookupKey acc p with
    | none => simp
    | some vs => simp
  | n :: rest, acc, p => by
    rw [mskGroupsGo_cons, groupSpec_cons]
    cases hz : zonePrefixOf n.data with
    | none =>
      dsimp only
      have hc : ¬((Option.none.map String.mk : Option String) = some p) := by simp
      rw [if_neg hc]
      exact mskGroupsGo_lookup rest acc p
    | some q =>
      dsimp only
      rw [mskGroupsGo_lookup rest (sdAppend acc (String.mk q) n) p]
      rw [sdAppend_lookup acc (String.mk q) n p]
      by_cases hp : String.mk q = p
      · have hc : ((some q).map String.mk : Option String) = some p := by simpa using hp
        rw [if_pos hp, if_pos hc]
        cases hacc : lookupKey acc p with
        | none =>
          rw [hp, hacc]
          simp
        | some vs =>
          rw [hp, hacc]
          simp
      · have hc : ¬(((some q).map String.mk : Option String) = some p) := by simpa using hp
        rw [if_neg hp, if_neg hc]

theorem mskGroups_lookup (names : List String) (p : String) :
    lookupKey (mskGroups names) p =
      if groupSpec names p = [] then none else some (groupSpec names p) := by
  unfold mskGroups
  rw [mskGroupsGo_lookup names [] p]
  rfl

theorem mskGroups_mem_iff (names : List String) (p : String) (vs : List String) :
    (p, vs) ∈ mskGroups names ↔ groupSpec names p = vs ∧ vs ≠ [] := by
  constructor
  · intro h
    have hl := lookupKey_of_mem_nodup (mskGroups names) p vs (mskGroups_keys_nodup names) h
    rw [mskGroups_lookup] at hl
    by_cases hg : groupSpec names p = []
    · rw [if_pos hg] at hl
      exact absurd hl (by simp)
    · rw [if_neg hg] at hl
      simp only [Option.some.injEq] at hl
      exact ⟨hl, hl ▸ hg⟩
  · rintro ⟨rfl, hne⟩
    apply lookupKey_mem
    rw [mskGroups_lookup]
    rw [if_neg hne]

theorem groupSpec_subset {names : List String} {p : String} {n : String}
    (h : n ∈ groupSpec names p) : n ∈ names :=
  List.mem_of_mem_filter h

theorem addMskAliasesGo_nil (acc : List (String × String)) : addMskAliasesGo [] acc = acc := rfl

theorem addMskAliasesGo_cons (g : String × List String) (rest : List (String × List String))
    (acc : List (String × String)) :
    addMskAliasesGo (g :: rest) acc =
      addMskAliasesGo rest
        (if g.2.length = 1 then
          match g.2.head? with
          | some full =>
            if (lookupKey acc g.1).isNone then acc ++ [(g.1, (lookupKey acc full).getD "")]
            else acc
          | none => acc
        else acc) := by
  rw [addMskAliasesGo]

theorem addMskAliasesGo_spec :
    ∀ (groups : List (String × List String)) (m added : List (String × String)),
    (groups.map Prod.fst).Nodup →
    (∀ g ∈ groups, g.1 ∉ added.map Prod.fst) →
    (∀ g ∈ groups, ∀ n ∈ g.2, n ∈ m.map Prod.fst) →
    addMskAliasesGo groups (m ++ added) =
      m ++ added ++ groups.filterMap (fun g =>
        match g.2 with
        | [full] =>
          if lookupKey m g.1 = none then some (g.1, (lookupKey m full).getD "") else none
        | _ => none)
  | [], m, added, _, _, _ => by
    rw [addMskAliasesGo_nil]
    simp
  | (p, fulls) :: rest, m, added, hnd, hadd, hmem => by
    rw [addMskAliasesGo_cons]
    simp only [List.map_cons, List.nodup_cons] at hnd
    have hadd_rest : ∀ g ∈ rest, g.1 ∉ added.map Prod.fst :=
      fun g hg => hadd g (List.mem_cons_of_mem _ hg)
    have hmem_rest : ∀ g ∈ rest, ∀ n ∈ g.2, n ∈ m.map Prod.fst :=
      fun g hg => hmem g (List.mem_cons_of_mem _ hg)
    match fulls with
    | [] =>
      rw [if_neg (by simp)]
      rw [addMskAliasesGo_spec rest m added hnd.2 hadd_rest hmem_rest]
      rw [List.filterMap_cons]
    | [f] =>
      rw [if_pos (by simp : ((p, [f]).2.length = 1))]
      dsimp only [List.head?]
      have hpadd : lookupKey added p = none :=
        lookupKey_none_of_not_mem added p (hadd (p, [f]) (List.mem_cons_self _ _))
      have hfm : ∃ w, lookupKey m f = some w :=
        lookupKey_isSome_of_mem m f (hmem (p, [f]) (List.mem_cons_self _ _) f (by simp))
      obtain ⟨w, hw⟩ := hfm
      have hff : lookupKey (m ++ added) f = some w := by
        rw [lookupKey_append, hw]
      cases hlm : lookupKey m p with
      | none =>
        have hlma : lookupKey (m ++ added) p = none := by
          rw [lookupKey_append, hlm, hpadd]
        rw [hlma]
        dsimp only [Option.isNone]
        rw [if_pos rfl]
        rw [hff]
        have hassoc : (m ++ added) ++ [(p, (some w).getD "")] =
            m ++ (added ++ [(p, (some w).getD "")]) := by
          simp [List.append_assoc]
        rw [hassoc]
        have hadd' : ∀ g ∈ rest, g.1 ∉ (added ++ [(p, (some w).getD "")]).map Prod.fst := by
          intro g hg
          simp only [List.map_append, List.mem_append, List.map_cons, List.map_nil,
            List.mem_singleton]
          push_neg
          refine ⟨hadd_rest g hg, ?_⟩
          intro e
          exact hnd.1 (e ▸ List.mem_map.mpr ⟨g, hg, rfl⟩)
        rw [addMskAliasesGo_spec rest m (added ++ [(p, (some w).getD "")]) hnd.2 hadd' hmem_rest]
        rw [List.filterMap_cons]
        dsimp only
        rw [if_pos hlm, hw]
        simp [List.append_assoc]
      | some u =>
        have hlma : lookupKey (m ++ added) p = some u := by
          rw [lookupKey_append, hlm]
        rw [hlma]
        dsimp only [Option.isNone]
        rw [if_neg (by simp)]
        rw [addMskAliasesGo_spec rest m added hnd.2 hadd_rest hmem_rest]
        rw [List.filterMap_cons]
        dsimp only
        rw [if_neg (by simp [hlm])]
    | f1 :: f2 :: ft =>
      rw [if_neg (by simp)]
      rw [addMskAliasesGo_spec rest m added hnd.2 hadd_rest hmem_rest]
      rw [List.filterMap_cons]

theorem addMskAliases_eq (m : List (String × String)) :
    addMskAliases m =
      m ++ (mskGroups (m.map Prod.fst)).filterMap (fun g =>
        match g.2 with
        | [full] =>
          if lookupKey m g.1 = none then some (g.1, (lookupKey m full).getD "") else none
        | _ => none) := by
  unfold addMskAliases
  have hmem : ∀ g ∈ mskGroups (m.map Prod.fst), ∀ n ∈ g.2, n ∈ m.map Prod.fst := by
    intro g hg n hn
    obtain ⟨p, vs⟩ := g
    obtain ⟨hgs, _⟩ := (mskGroups_mem_iff (m.map Prod.fst) p vs).mp hg
    exact groupSpec_subset (hgs ▸ hn)
  have h := addMskAliasesGo_spec (mskGroups (m.map Prod.fst)) m []
    (mskGroups_keys_nodup _) (by simp) hmem
  simpa using h

theorem addMskAliases_mem_iff (m : List (String × String)) (p v : String) :
    ((p, v) ∈ addMskAliases m ↔
      (p, v) ∈ m ∨ (∃ n, groupSpec (m.map Prod.fst) p = [n] ∧ p ∉ m.map Prod.fst ∧
        lookupKey m n = some v)) := by
  rw [addMskAliases_eq, List.mem_append]
  apply or_congr_right
  constructor
  · intro h
    rw [List.mem_filterMap] at h
    obtain ⟨⟨p', fulls⟩, hg, hfg⟩ := h
    match fulls with
    | [] => simp at hfg
    | [f] =>
      dsimp only at hfg
      by_cases hlm : lookupKey m p' = none
      · rw [if_pos hlm] at hfg
        simp only [Option.some.injEq, Prod.mk.injEq] at hfg
        obtain ⟨rfl, hv⟩ := hfg
        obtain ⟨hgs, _⟩ := (mskGroups_mem_iff (m.map Prod.fst) p' [f]).mp hg
        refine ⟨f, hgs, ?_, ?_⟩
        · intro hmem
          obtain ⟨w, hw⟩ := lookupKey_isSome_of_mem m p' hmem
          rw [hw] at hlm
          exact absurd hlm (by simp)
        · have hf : f ∈ m.map Prod.fst := groupSpec_subset (hgs ▸ (by simp : f ∈ [f]))
          obtain ⟨w, hw⟩ := lookupKey_isSome_of_mem m f hf
          rw [hw]
          rw [hw] at hv
          simp only [Option.getD_some] at hv
          rw [hv]
      · rw [if_neg hlm] at hfg
        simp at hfg
    | f1 :: f2 :: ft => simp at hfg
  · rintro ⟨n, hgs, hpm, hlv⟩
    rw [List.mem_filterMap]
    refine ⟨(p, [n]), (mskGroups_mem_iff (m.map Prod.fst) p [n]).mpr ⟨hgs, by simp⟩, ?_⟩
    dsimp only
    rw [if_pos (lookupKey_none_of_not_mem m p hpm), hlv]
    rfl

theorem parse_coordinates_eq (dist : Point → Point → ℚ) (info : List (String × List String))
    (ts : List (String × Transformer)) (sk : Transformer) (th : ℚ) (s : List Char) :
    parse_coordinates dist info ts sk th s =
      if (pyStrip s).isEmpty then .ok []
      else
        match detect_system_key_for_string info (pyStrip s) with
        | some key =>
          if pyUpperStr (String.mk (pyStrip key.data)) = "СК-42" then
            sk42Dispatch dist th sk (pyStrip s)
          else restDispatch dist th ts (pyStrip s)
        | none => restDispatch dist th ts (pyStrip s) := rfl

theorem should_prioritize_dms_nil : should_prioritize_dms [] = false := by decide

theorem looks_like_msk_nil : looks_like_msk [] = false := by decide

theorem restDispatch_nil (dist : Point → Point → ℚ) (th : ℚ)
    (ts : List (String × Transformer)) : restDispatch dist th ts [] = .ok [] := by
  unfold restDispatch
  rw [if_neg (by rw [should_prioritize_dms_nil]; simp)]
  rw [if_neg (by rw [looks_like_msk_nil]; simp)]
  unfold dmsDispatch
  rw [if_pos (by decide)]

theorem mskNotFoundMsg_head : mskNotFoundMsg.data.head? = some 'О' := rfl

theorem dmsDispatch_error_shape {dist : Point → Point → ℚ} {th : ℚ} {c : List Char} {e : String}
    (h : dmsDispatch dist th c = .error e) :
    (∃ n, e = oddCountReason n) ∨ (∃ a b, e = dmsPairError a b) ∨ e = anomalyReasonMsg := by
  unfold dmsDispatch at h
  by_cases hdeg : (!c.contains '°') = true
  · rw [if_pos hdeg] at h
    exact absurd h (by simp)
  · rw [if_neg hdeg] at h
    cases hp : parse_dms_coordinates c with
    | error e' =>
      rw [hp] at h
      dsimp only at h
      simp only [Except.error.injEq] at h
      subst h
      rcases parse_dms_error_shape hp with h1 | h2
      · exact Or.inl h1
      · exact Or.inr (Or.inl h2)
    | ok pts =>
      rw [hp] at h
      dsimp only at h
      by_cases hg : (!pts.isEmpty && decide (3 ≤ pts.length)) = true
      · rw [if_pos hg] at h
        unfold runAnomalyCheck at h
        by_cases ha : (detect_coordinate_anomalies dist th pts).1 = true
        · rw [if_pos ha] at h
          simp only [Except.error.injEq] at h
          subst h
          rw [detect_true_reason dist th pts ha]
          exact Or.inr (Or.inr rfl)
        · rw [if_neg (by simpa using ha)] at h
          exact absurd h (by simp)
      · rw [if_neg hg] at h
        exact absurd h (by simp)

theorem oddCountReason_ne_mskNotFound (n : Nat) : oddCountReason n ≠ mskNotFoundMsg := by
  apply string_ne_of_head
  rw [oddCountReason_head n, mskNotFoundMsg_head]
  decide

theorem dmsPairError_ne_mskNotFound (a b : ℚ) : dmsPairError a b ≠ mskNotFoundMsg := by
  apply string_ne_of_head
  rw [dmsPairError_head a b, mskNotFoundMsg_head]
  decide

theorem anomalyReason_ne_mskNotFound : anomalyReasonMsg ≠ mskNotFoundMsg := by
  decide

/-- Claim C1: on every parse path (DMS, metric-grid, SK-42) every point of a
successful result lies within the WGS84 range `-90 ≤ lat ≤ 90`,
`-180 ≤ lon ≤ 180`, and whenever a computed `(lat, lon)` pair violates the
range the parse of the whole input fails with a non-empty error reason — the
offending pair is never clamped and never silently dropped. -/
theorem claim_C1 (s : List Char) (t : Transformer) (ps : List Point) :
    okResultInRange (parse_dms_coordinates s) = true ∧
    okResultInRange (parse_msk_coordinates t s) = true ∧
    okResultInRange (transform_points_sk42_to_wgs84 t ps) = true ∧
    ((dmsComputedPairs s).any (fun v => !validate_wgs84_range v.1 v.2) = true →
      isParseFailure (parse_dms_coordinates s) = true) ∧
    ((mskComputedPairs t s).any (fun v => !validate_wgs84_range v.1 v.2) = true →
      isParseFailure (parse_msk_coordinates t s) = true) ∧
    ((sk42ComputedPairs t ps).any (fun v => !validate_wgs84_range v.1 v.2) = true →
      isParseFailure (transform_points_sk42_to_wgs84 t ps) = true) := by
  refine ⟨?_, ?_, ?_, ?_, ?_, ?_⟩
  · cases hr : parse_dms_coordinates s with
    | error e => rfl
    | ok pts =>
      show pts.all (fun p => validate_wgs84_range p.lat p.lon) = true
      obtain ⟨hpts, hall⟩ := parse_dms_ok hr
      rw [List.all_eq_true]
      intro p hp
      exact dmsBuild_inRange (dmsMapping s) 0 _ hall p (hpts ▸ hp)
  · cases hr : parse_msk_coordinates t s with
    | error e => rfl
    | ok pts =>
      show pts.all (fun p => validate_wgs84_range p.lat p.lon) = true
      rw [List.all_eq_true]
      exact processMsk_ok_inRange t (mskCoordFindAll s) pts hr
  · cases hr : transform_points_sk42_to_wgs84 t ps with
    | error e => rfl
    | ok pts =>
      show pts.all (fun p => validate_wgs84_range p.lat p.lon) = true
      rw [List.all_eq_true]
      exact sk42_ok_inRange t ps pts hr
  · exact parse_dms_fails_of_bad
  · exact processMsk_fails_of_bad t (mskCoordFindAll s)
  · exact sk42_fails_of_bad t ps

/-- Claim C2: whenever the total number of sexagesimal angle matches extracted
across all `';'`-separated parts is odd, `parse_dms_coordinates` fails with
the odd-count reason, and that reason reports the count. -/
theorem claim_C2 (s : List Char) (h : (extract_dms_matches s).length % 2 = 1) :
    parse_dms_coordinates s = .error (oddCountReason (extract_dms_matches s).length) ∧
    containsSub (Nat.repr (extract_dms_matches s).length).data
      (oddCountReason (extract_dms_matches s).length).data = true := by
  have hne : extract_dms_matches s ≠ [] := by
    intro e
    rw [e] at h
    simp at h
  constructor
  · unfold parse_dms_coordinates
    rw [if_neg (fun he => hne (List.isEmpty_iff.mp he))]
    rw [if_pos (by omega)]
  · have hd : (oddCountReason (extract_dms_matches s).length).data =
        ("Нечетное количество найденных ДМС координат (" : String).data ++
          ((Nat.repr (extract_dms_matches s).length).data ++
            ("). Ожидается пара (широта, долгота)." : String).data) := by
      unfold oddCountReason
      simp [String.data_append]
    rw [hd]
    exact containsSub_mid _ _ _

/-- Claim C3: the anomaly detector returns not-anomalous for fewer than 3
points; for 3 or more points it flags exactly the points whose average
distance to all other points exceeds the threshold; it reports the set
anomalous iff at least one point is flagged; and it never fires when all
pairwise distances are below the threshold. -/
theorem claim_C3 (dist : Point → Point → ℚ) (th : ℚ) (pts : List Point) :
    (pts.length < 3 → detect_coordinate_anomalies dist th pts = (false, none, [])) ∧
    (3 ≤ pts.length →
      (detect_coordinate_anomalies dist th pts).2.2 = specFlagged dist th pts) ∧
    ((detect_coordinate_anomalies dist th pts).1 = true ↔
      (detect_coordinate_anomalies dist th pts).2.2 ≠ []) ∧
    ((∀ p ∈ pts, ∀ q ∈ pts, dist p q < th) →
      (detect_coordinate_anomalies dist th pts).1 = false) :=
  ⟨fun h => detect_lt3 dist th pts h,
   fun h => detect_snd_eq dist th pts h,
   detect_fst_iff dist th pts,
   fun h => detect_not_fire dist th pts h⟩

/-- Claim C4: on success, the coordinates of the output points are exactly
the per-pair values `deg + min/60 + sec/3600` (decimal comma accepted), with
latitude negated iff the combined text of the pair's two source parts
contains a standalone `ЮШ`/`S` token and longitude negated iff it contains a
standalone `ЗД`/`W` token, rounded to 6 decimals, with exactly the `(0, 0)`
pairs omitted. -/
theorem claim_C4 (s : List Char) (pts : List Point)
    (h : parse_dms_coordinates s = .ok pts) :
    pts.map (fun p => (p.lat, p.lon)) = specDmsCoords s := by
  obtain ⟨hpts, _⟩ := parse_dms_ok h
  subst hpts
  rw [dmsBuild_map_coords]
  rfl

/-- Claim C5: on success, each output point's name follows the priority
order: the explicit point-index marker of the pair's part at the pair's
position, else the textual `точка N` label found in the part text, else the
synthesized `точка (pair_index + 1)`. -/
theorem claim_C5 (s : List Char) (pts : List Point)
    (h : parse_dms_coordinates s = .ok pts) :
    pts.map Point.name = specDmsNames s := by
  obtain ⟨hpts, _⟩ := parse_dms_ok h
  subst hpts
  unfold specDmsNames
  apply dmsBuild_map_names
  intro ab hab
  exact dmsMapping_part (pairUp_mem _ ab hab).1

/-- Claim C9 (counterexample): a point whose output coordinates are exactly
`(0, 0)` can appear in the parser output, because the zero test runs on the
pre-rounding values: seconds of `0.001` give a tiny non-zero angle that
rounds to `0.0` at 6 decimals. -/
theorem claim_C9_counterexample :
    parse_dms_coordinates "0°0'0.001\"СШ 0°0'0.001\"ВД".data =
      .ok [⟨"точка 1", 0, 0⟩] := by
  with_unfolding_all rfl

/-- Claim C9 (amended): the DMS parser omits exactly those pairs whose
computed pre-rounding `(lat, lon)` is `(0, 0)`, and the metric-grid parser
omits exactly those matches whose raw values are both exactly zero, silently
(success, not an error); a point whose rounded output is `(0, 0)` can still
appear. -/
theorem claim_C9_amended (s : List Char) (t : Transformer) (pts pts' : List Point) :
    (parse_dms_coordinates s = .ok pts →
      pts.length = countNonzeroPairs (dmsComputedPairs s)) ∧
    (parse_msk_coordinates t s = .ok pts' →
      pts'.length = countNonzeroPairs (mskParsedValues s)) := by
  constructor
  · intro h
    obtain ⟨hpts, _⟩ := parse_dms_ok h
    subst hpts
    rw [dmsBuild_length]
    rfl
  · intro h
    exact processMsk_ok_length t (mskCoordFindAll s) pts' h

/-- Claim C6: when the input (after stripping) reaches the metric-grid branch
(no exact catalog match, no `гск` marker, meter markers present without a
degree symbol) and no registered system name occurs as a substring, parsing
fails with the unrecognized-system reason, which contains the phrase
`не найдена известная система координат МСК`. -/
theorem claim_C6 (dist : Point → Point → ℚ) (info : List (String × List String))
    (ts : List (String × Transformer)) (sk : Transformer) (th : ℚ) (s : List Char)
    (hdet : detect_system_key_for_string info (pyStrip s) = none)
    (hgsk : should_prioritize_dms (pyStrip s) = false)
    (hmsk : looks_like_msk (pyStrip s) = true)
    (hts : ts.all (fun kv => !containsSub kv.1.data (pyStrip s)) = true) :
    parse_coordinates dist info ts sk th s = .error mskNotFoundMsg ∧
    containsSub "не найдена известная система координат МСК".data mskNotFoundMsg.data
      = true := by
  constructor
  · rw [parse_coordinates_eq]
    have hemp : ¬((pyStrip s).isEmpty = true) := by
      intro he
      rw [List.isEmpty_iff.mp he] at hmsk
      rw [looks_like_msk_nil] at hmsk
      exact absurd hmsk (by simp)
    rw [if_neg hemp, hdet]
    unfold restDispatch
    rw [if_neg (by rw [hgsk]; simp)]
    rw [if_pos hmsk]
    unfold mskDispatch
    have hfind : ts.find? (fun kv => containsSub kv.1.data (pyStrip s)) = none := by
      rw [List.find?_eq_none]
      intro kv hkv
      have := List.all_eq_true.mp hts kv hkv
      simp only [Bool.not_eq_true'] at this
      simp [this]
    rw [hfind]
  · decide

/-- Claim C7: an input containing the marker `гск` (case-insensitively) that
is not an exact catalog match skips the metric-grid branch entirely: the
result equals the DMS branch, it is independent of the projection registry,
and the unrecognized-system failure can never be raised. -/
theorem claim_C7 (dist : Point → Point → ℚ) (info : List (String × List String))
    (ts ts' : List (String × Transformer)) (sk : Transformer) (th : ℚ) (s : List Char)
    (hdet : detect_system_key_for_string info (pyStrip s) = none)
    (hgsk : should_prioritize_dms (pyStrip s) = true) :
    parse_coordinates dist info ts sk th s = dmsDispatch dist th (pyStrip s) ∧
    parse_coordinates dist info ts sk th s = parse_coordinates dist info ts' sk th s ∧
    (∀ e, parse_coordinates dist info ts sk th s = .error e → e ≠ mskNotFoundMsg) := by
  have hemp : ¬((pyStrip s).isEmpty = true) := by
    intro he
    rw [List.isEmpty_iff.mp he] at hgsk
    rw [should_prioritize_dms_nil] at hgsk
    exact absurd hgsk (by simp)
  have hmain : ∀ (u : List (String × Transformer)),
      parse_coordinates dist info u sk th s = dmsDispatch dist th (pyStrip s) := by
    intro u
    rw [parse_coordinates_eq]
    rw [if_neg hemp, hdet]
    unfold restDispatch
    rw [if_pos hgsk]
  refine ⟨hmain ts, (hmain ts).trans (hmain ts').symm, ?_⟩
  intro e he
  rw [hmain ts] at he
  rcases dmsDispatch_error_shape he with ⟨n, rfl⟩ | ⟨a, b, rfl⟩ | rfl
  · exact oddCountReason_ne_mskNotFound n
  · exact dmsPairError_ne_mskNotFound a b
  · exact anomalyReason_ne_mskNotFound

/-- Claim C8: a bare-prefix alias is in the registry after the alias pass if
and only if its prefix group has exactly one zone member and the prefix is
not already a registered name, and the alias maps to that single member's
definition; a prefix group with more than one zone variant never gets an
alias. -/
theorem claim_C8 (m : List (String × String)) (p v : String) :
    ((p, v) ∈ addMskAliases m ↔
      (p, v) ∈ m ∨ (∃ n, groupSpec (m.map Prod.fst) p = [n] ∧ p ∉ m.map Prod.fst ∧
        lookupKey m n = some v)) ∧
    (2 ≤ (groupSpec (m.map Prod.fst) p).length →
      (p, v) ∈ addMskAliases m → (p, v) ∈ m) := by
  refine ⟨addMskAliases_mem_iff m p v, ?_⟩
  intro h2 hm
  rcases (addMskAliases_mem_iff m p v).mp hm with hm | ⟨n, hgs, _, _⟩
  · exact hm
  · rw [hgs] at h2
    simp at h2

/-- Claim C10: an input exactly matching a catalog entry registered under a
key other than `СК-42` receives no datum transformation: the dispatcher falls
through to the normal notation-detection sequence, and the result is
independent of the SK-42 transformer. -/
theorem claim_C10 (dist : Point → Point → ℚ) (info : List (String × List String))
    (ts : List (String × Transformer)) (sk sk' : Transformer) (th : ℚ) (s : List Char)
    (key : String)
    (hdet : detect_system_key_for_string info (pyStrip s) = some key)
    (hkey : pyUpperStr (String.mk (pyStrip key.data)) ≠ "СК-42") :
    parse_coordinates dist info ts sk th s = restDispatch dist th ts (pyStrip s) ∧
    parse_coordinates dist info ts sk th s = parse_coordinates dist info ts sk' th s := by
  have hmain : ∀ (u : Transformer),
      parse_coordinates dist info ts u th s = restDispatch dist th ts (pyStrip s) := by
    intro u
    rw [parse_coordinates_eq]
    by_cases hemp : (pyStrip s).isEmpty = true
    · rw [if_pos hemp]
      rw [List.isEmpty_iff.mp hemp]
      exact (restDispatch_nil dist th ts).symm
    · rw [if_neg hemp, hdet]
      dsimp only
      rw [if_neg hkey]
  exact ⟨hmain sk, (hmain sk).trans (hmain sk').symm⟩

/-- Witness for C1: concrete out-of-range inputs make each parser fail. -/
theorem claim_C1_witness :
    isParseFailure (parse_dms_coordinates "91°0'0\"СШ 40°0'0\"ВД".data) = true ∧
    isParseFailure (parse_msk_coordinates (fun a b => (a, b)) "1: 100 м., 200 м.".data)
      = true ∧
    isParseFailure (transform_points_sk42_to_wgs84 (fun a b => (a, b))
      [⟨"т", 0, 200⟩]) = true :=
  ⟨(claim_C1 "91°0'0\"СШ 40°0'0\"ВД".data (fun a b => (a, b)) []).2.2.2.1
      (by with_unfolding_all decide),
   (claim_C1 "1: 100 м., 200 м.".data (fun a b => (a, b)) []).2.2.2.2.1
      (by with_unfolding_all decide),
   (claim_C1 [] (fun a b => (a, b)) [⟨"т", 0, 200⟩]).2.2.2.2.2
      (by with_unfolding_all decide)⟩

/-- Witness for C2: a single angle match is an odd count and fails. -/
theorem claim_C2_witness :
    parse_dms_coordinates "1°2'3\"".data =
      .error (oddCountReason (extract_dms_matches "1°2'3\"".data).length) ∧
    containsSub (Nat.repr (extract_dms_matches "1°2'3\"".data).length).data
      (oddCountReason (extract_dms_matches "1°2'3\"".data).length).data = true :=
  claim_C2 "1°2'3\"".data (by with_unfolding_all decide)

/-- Witness for C3: concrete evaluations of the detector. -/
theorem claim_C3_witness :
    detect_coordinate_anomalies (fun _ _ => (0 : ℚ)) 1 [⟨"a", 0, 0⟩] = (false, none, []) ∧
    (detect_coordinate_anomalies (fun _ _ => (0 : ℚ)) 1
      [⟨"a", 0, 0⟩, ⟨"b", 0, 0⟩, ⟨"c", 0, 0⟩]).2.2 =
      specFlagged (fun _ _ => (0 : ℚ)) 1 [⟨"a", 0, 0⟩, ⟨"b", 0, 0⟩, ⟨"c", 0, 0⟩] ∧
    (detect_coordinate_anomalies (fun _ _ => (0 : ℚ)) 1
      [⟨"a", 0, 0⟩, ⟨"b", 0, 0⟩, ⟨"c", 0, 0⟩]).1 = false :=
  ⟨(claim_C3 (fun _ _ => (0 : ℚ)) 1 [⟨"a", 0, 0⟩]).1 (by with_unfolding_all decide),
   (claim_C3 (fun _ _ => (0 : ℚ)) 1 _).2.1 (by with_unfolding_all decide),
   (claim_C3 (fun _ _ => (0 : ℚ)) 1 _).2.2.2 (by with_unfolding_all decide)⟩

/-- Witness for C4: the coordinates of the specification's first example. -/
theorem claim_C4_witness :
    ([(⟨"точка 1", 400289/8000, 26568653/500000⟩ : Point)]).map (fun p => (p.lat, p.lon)) =
      specDmsCoords "1: 53°8'14.3\" СШ 50°2'10.05\" ВД".data :=
  claim_C4 "1: 53°8'14.3\" СШ 50°2'10.05\" ВД".data _ (by with_unfolding_all rfl)

/-- Witness for C5: the textual `точка 7` label wins over the synthesized
name. -/
theorem claim_C5_witness :
    ([(⟨"точка 7", 50, 40⟩ : Point)]).map Point.name =
      specDmsNames "точка 7 40°0'0\" СШ 50°0'0\" ВД".data :=
  claim_C5 "точка 7 40°0'0\" СШ 50°0'0\" ВД".data _ (by with_unfolding_all rfl)

/-- Witness for C6: the specification's unknown-system example fails with the
unrecognized-system reason. -/
theorem claim_C6_witness :
    parse_coordinates (fun _ _ => (0 : ℚ)) [] [("МСК-63 зона 1", fun a b => (a, b))]
      (fun a b => (a, b)) 20 "МСК-99 зона 1: 12345.67 м., 76543.21 м.".data =
      .error mskNotFoundMsg ∧
    containsSub "не найдена известная система координат МСК".data mskNotFoundMsg.data
      = true :=
  claim_C6 _ _ _ _ _ _ (by with_unfolding_all decide) (by with_unfolding_all decide)
    (by with_unfolding_all decide) (by with_unfolding_all decide)

/-- Witness for C7: a `гск`-marked input with meter markers goes to the DMS
branch. -/
theorem claim_C7_witness :
    parse_coordinates (fun _ _ => (0 : ℚ)) [] [("МСК-63", fun a b => (a, b))]
      (fun a b => (a, b)) 20 "гск 1: 100 м., 200 м.".data =
      dmsDispatch (fun _ _ => (0 : ℚ)) 20 (pyStrip "гск 1: 100 м., 200 м.".data) :=
  (claim_C7 _ _ _ [] _ _ _ (by with_unfolding_all decide) (by with_unfolding_all decide)).1

/-- Witness for C8: a prefix with two zone variants gets no alias. -/
theorem claim_C8_witness :
    ("МСК-50", "X") ∈ [("МСК-50", "X"), ("МСК-50 зона 1", "A"), ("МСК-50 зона 2", "B")] :=
  (claim_C8 [("МСК-50", "X"), ("МСК-50 зона 1", "A"), ("МСК-50 зона 2", "B")]
    "МСК-50" "X").2 (by with_unfolding_all decide) (by with_unfolding_all decide)

/-- Witness for C9 (amended): a pre-rounding `(0, 0)` pair is dropped by both
parsers while the remaining points are kept. -/
theorem claim_C9_amended_witness :
    ([(⟨"точка 2", 2, 1⟩ : Point)]).length =
      countNonzeroPairs
        (dmsComputedPairs "0°0'0\"СШ 0°0'0\"ВД 1°0'0\"СШ 2°0'0\"ВД".data) ∧
    ([(⟨"точка 2", 41/2000, 21/2000⟩ : Point)]).length =
      countNonzeroPairs (mskParsedValues "1: 0 м., 0 м. 2: 10.5 м., 20.5 м.".data) :=
  ⟨(claim_C9_amended "0°0'0\"СШ 0°0'0\"ВД 1°0'0\"СШ 2°0'0\"ВД".data
      (fun a b => (a / 1000, b / 1000)) [⟨"точка 2", 2, 1⟩] []).1
      (by with_unfolding_all rfl),
   (claim_C9_amended "1: 0 м., 0 м. 2: 10.5 м., 20.5 м.".data
      (fun a b => (a / 1000, b / 1000)) [] [⟨"точка 2", 41/2000, 21/2000⟩]).2
      (by with_unfolding_all rfl)⟩

/-- Witness for C10: a catalog entry under the key `ГСК` falls through to the
normal dispatch sequence. -/
theorem claim_C10_witness :
    parse_coordinates (fun _ _ => (0 : ℚ)) [("ГСК", ["объект 1"])] [] (fun a b => (a, b))
      20 "объект 1".data =
      restDispatch (fun _ _ => (0 : ℚ)) 20 [] (pyStrip "объект 1".data) :=
  (claim_C10 _ _ _ _ (fun a b => (b, a)) _ _ "ГСК" (by with_unfolding_all decide)
    (by with_unfolding_all decide)).1
